import Mathlib

/-
  Verification development for the scrapers repository
  (src/dimakids/dimakids-downloader.py and src/stardima/stardima-extract.py).

  The Python sources are shallowly embedded below.  Network requests,
  the HTML parser and the external media downloader are modelled as
  explicit oracle parameters (functions supplied to each embedded
  definition); everything the scripts themselves compute (string
  processing, base64 decoding, the regular-expression extractions used
  by the scrapers, the retry state machine and the file-system effects
  of the segmented downloader) is translated into executable Lean
  definitions.  Bytes are modelled as Nat, file contents as List Nat,
  Python dicts as insertion-ordered association lists.
-/

namespace Scrapers

/-- Python truthiness-preserving whitespace test (ASCII subset of Python's
`\s` class; the scraped pages only contain ASCII whitespace around the
tokens these regexes extract). -/
def isSpaceChar (c : Char) : Bool :=
  c = ' ' ∨ c = '\t' ∨ c = '\n' ∨ c = '\r' ∨ c = '\x0b' ∨ c = '\x0c'

/-- ASCII subset of Python's regex `\w` class. -/
def isWordChar (c : Char) : Bool :=
  c.isAlphanum || c = '_'

/-- Bool test for `pat` occurring as a contiguous sub-list of a char list
(the Python `pat in s` substring test). -/
def hasSubList (pat : List Char) : List Char → Bool
  | [] => pat.isEmpty
  | c :: rest => pat.isPrefixOf (c :: rest) || hasSubList pat rest

/-- Python's `sub in s` substring containment on strings. -/
def strContains (s sub : String) : Bool :=
  hasSubList sub.toList s.toList

/-- Python dict assignment `d[k] = v` on an insertion-ordered association
list: overwrite in place when the key exists, append otherwise. -/
def dictUpsert {κ : Type} [BEq κ] (d : List (κ × String)) (k : κ) (v : String) :
    List (κ × String) :=
  if d.any (fun e => e.1 == k) then
    d.map (fun e => if e.1 == k then (k, v) else e)
  else
    d ++ [(k, v)]

/-- Python `a or b` on optional strings: `None` and `""` are falsy. -/
def pyOr (a b : Option String) : Option String :=
  match a with
  | some s => if s = "" then b else some s
  | none => b

/-- Splitting driver for `pySplit` (`fuel` starts at the list length;
the separator is nonempty at every call site). -/
def splitOnCharsAux (pat : List Char) : Nat → List Char → List Char →
    List (List Char)
  | _, [], cur => [cur.reverse]
  | 0, l, cur => [cur.reverse ++ l]
  | fuel + 1, c :: rest, cur =>
    if pat.isPrefixOf (c :: rest) then
      cur.reverse :: splitOnCharsAux pat fuel ((c :: rest).drop pat.length) []
    else splitOnCharsAux pat fuel rest (c :: cur)

/-- Python `s.split(sep)` for a nonempty separator (also the behaviour
of Lean's `String.splitOn`, re-implemented structurally). -/
def pySplit (s sep : String) : List String :=
  if sep.isEmpty then [s]
  else (splitOnCharsAux sep.toList s.toList.length s.toList []).map String.mk

/-- Python `s.lower()` (ASCII case folding, which covers every name the
scrapers compare). -/
def pyLower (s : String) : String :=
  String.mk (s.toList.map Char.toLower)

/-- Python `s.strip()`. -/
def pyStrip (s : String) : String :=
  String.mk (((s.toList.dropWhile isSpaceChar).reverse.dropWhile
    isSpaceChar).reverse)

/-- Python `s.startswith(pre)`. -/
def pyStartsWith (s pre : String) : Bool :=
  pre.toList.isPrefixOf s.toList

/-- Replacement driver for `pyReplace`. -/
def replaceCharsAux (pat rep : List Char) : Nat → List Char → List Char
  | _, [] => []
  | 0, l => l
  | fuel + 1, c :: rest =>
    if pat.isPrefixOf (c :: rest) then
      rep ++ replaceCharsAux pat rep fuel ((c :: rest).drop pat.length)
    else c :: replaceCharsAux pat rep fuel rest

/-- Python `s.replace(pat, rep)` for a nonempty pattern. -/
def pyReplace (s pat rep : String) : String :=
  if pat.isEmpty then s
  else String.mk (replaceCharsAux pat.toList rep.toList s.toList.length
    s.toList)

/-- Python `set.add`: append the element unless already present
(insertion order is irrelevant once the set is sorted). -/
def setInsert (l : List Nat) (x : Nat) : List Nat :=
  if x ∈ l then l else l ++ [x]

/-- Stable insertion of `x` after all earlier-inserted elements of key
not greater than `k x`. -/
def insKey {α : Type} (k : α → Nat) (x : α) : List α → List α
  | [] => [x]
  | y :: ys => if k y < k x then y :: insKey k x ys else x :: y :: ys

/-- Python's `list.sort(key=...)`/`sorted` are specified to be stable
ascending sorts by key; a stable key-sort has a unique result, and this
insertion sort computes it. -/
def pySortByKey {α : Type} (k : α → Nat) : List α → List α
  | [] => []
  | x :: xs => insKey k x (pySortByKey k xs)

/-- Python `sorted(...)` on a list of naturals. -/
def pyNatSort (l : List Nat) : List Nat :=
  pySortByKey id l

/-- Digit run of a Python integer literal body: digits with single
underscores allowed between digits (as accepted by `int(...)`). -/
def pyIntDigits : List Char → Nat → Option Nat
  | [], acc => some acc
  | '_' :: rest, acc =>
    match rest with
    | d :: _ => if d.isDigit then pyIntDigits rest acc else none
    | [] => none
  | c :: rest, acc =>
    if c.isDigit then pyIntDigits rest (acc * 10 + (c.toNat - 48)) else none

/-- Nonempty digit run starting with a digit. -/
def pyIntBody (cs : List Char) : Option Nat :=
  match cs with
  | c :: _ => if c.isDigit then pyIntDigits cs 0 else none
  | [] => none

/-- Python `int(s)`: strip surrounding whitespace, optional sign, base-10
digits (underscores between digits allowed); `none` models the
`ValueError` raised on any other input. -/
def pyInt (s : String) : Option Int :=
  match (pyStrip s).toList with
  | '+' :: rest => (pyIntBody rest).map Int.ofNat
  | '-' :: rest => (pyIntBody rest).map (fun n => -(n : Int))
  | rest => (pyIntBody rest).map Int.ofNat

/-- Value of one base64 alphabet character. -/
def b64Val (c : Char) : Option Nat :=
  if 'A' ≤ c ∧ c ≤ 'Z' then some (c.toNat - 65)
  else if 'a' ≤ c ∧ c ≤ 'z' then some (c.toNat - 97 + 26)
  else if '0' ≤ c ∧ c ≤ '9' then some (c.toNat - 48 + 52)
  else if c = '+' then some 62
  else if c = '/' then some 63
  else none

/-- Decode a run of base64 quads into bytes.  A padded quad must be the
final one; any malformed quad models the `binascii.Error` raised by
`base64.b64decode`. -/
def b64Quads : List Char → Option (List Nat)
  | [] => some []
  | a :: b :: c :: d :: rest =>
    match b64Val a, b64Val b with
    | some va, some vb =>
      if c = '=' then
        if d = '=' ∧ rest = [] then some [va * 4 + vb / 16] else none
      else
        match b64Val c with
        | some vc =>
          if d = '=' then
            if rest = [] then some [va * 4 + vb / 16, (vb % 16) * 16 + vc / 4]
            else none
          else
            match b64Val d with
            | some vd =>
              (b64Quads rest).map
                (fun tl => (va * 4 + vb / 16) :: ((vb % 16) * 16 + vc / 4) ::
                  ((vc % 4) * 64 + vd) :: tl)
            | none => none
        | none => none
    | _, _ => none
  | _ => none

/-- `base64.b64decode` with its default `validate=False`: characters
outside the alphabet and padding are discarded, then the remainder must
form whole quads. -/
def b64decodeBytes (s : String) : Option (List Nat) :=
  let cs := s.toList.filter (fun c => (b64Val c).isSome || c = '=')
  if cs.length % 4 = 0 then b64Quads cs else none

/-- Strict UTF-8 decoding of a byte list (Python `bytes.decode('utf-8')`);
`none` models the `UnicodeDecodeError` on malformed input. -/
def utf8Decode : List Nat → Option (List Char)
  | [] => some []
  | b :: rest =>
    if b < 0x80 then
      (utf8Decode rest).map (fun tl => Char.ofNat b :: tl)
    else if 0xC2 ≤ b ∧ b ≤ 0xDF then
      match rest with
      | c1 :: rest' =>
        if 0x80 ≤ c1 ∧ c1 ≤ 0xBF then
          (utf8Decode rest').map
            (fun tl => Char.ofNat ((b - 0xC0) * 64 + (c1 - 0x80)) :: tl)
        else none
      | [] => none
    else if 0xE0 ≤ b ∧ b ≤ 0xEF then
      match rest with
      | c1 :: c2 :: rest' =>
        let cp := (b - 0xE0) * 4096 + (c1 - 0x80) * 64 + (c2 - 0x80)
        if 0x80 ≤ c1 ∧ c1 ≤ 0xBF ∧ 0x80 ≤ c2 ∧ c2 ≤ 0xBF ∧
            0x800 ≤ cp ∧ ¬ (0xD800 ≤ cp ∧ cp ≤ 0xDFFF) then
          (utf8Decode rest').map (fun tl => Char.ofNat cp :: tl)
        else none
      | _ => none
    else if 0xF0 ≤ b ∧ b ≤ 0xF4 then
      match rest with
      | c1 :: c2 :: c3 :: rest' =>
        let cp := (b - 0xF0) * 262144 + (c1 - 0x80) * 4096 +
          (c2 - 0x80) * 64 + (c3 - 0x80)
        if 0x80 ≤ c1 ∧ c1 ≤ 0xBF ∧ 0x80 ≤ c2 ∧ c2 ≤ 0xBF ∧
            0x80 ≤ c3 ∧ c3 ≤ 0xBF ∧ 0x10000 ≤ cp ∧ cp ≤ 0x10FFFF then
          (utf8Decode rest').map (fun tl => Char.ofNat cp :: tl)
        else none
      | _ => none
    else none

/-- `base64.b64decode(s).decode('utf-8')`; `none` models either library
call raising. -/
def b64decodeUtf8 (s : String) : Option String :=
  ((b64decodeBytes s).bind utf8Decode).map String.mk

/-- The opening brace character (written via its code point so that no
brace appears outside strings and comments in this file). -/
def lbrace : Char := Char.ofNat 0x7b

/-- The closing brace character. -/
def rbrace : Char := Char.ofNat 0x7d

/-! ## dimakids-downloader.py -/

/-- File-system fragment touched by the downloader: a path-to-content
association list (contents are byte lists). -/
abbrev FsT := List (String × List Nat)

/-- Content at a path, `none` when the path does not exist. -/
def fsGet (fs : FsT) (p : String) : Option (List Nat) :=
  (fs.find? (fun e => e.1 == p)).map (fun e => e.2)

/-- `os.remove(p)` (also models `if os.path.exists(p): os.remove(p)`,
which is a no-op on an absent path). -/
def fsRemove (fs : FsT) (p : String) : FsT :=
  fs.filter (fun e => !(e.1 == p))

/-- Write content at a path, replacing any previous entry. -/
def fsSet (fs : FsT) (p : String) (c : List Nat) : FsT :=
  fsRemove fs p ++ [(p, c)]

/-- Result of one `download_with_custom_progress` call: normal return
(`True`) or the re-raised exception, each carrying the file system after
the call's effects. -/
inductive DlResult
  | ok (fs : FsT)
  | err (fs : FsT)
deriving DecidableEq

/-- `[urljoin(url, line.strip()) for line in lines if line and not
line.startswith('#')]` with `urljoin` (an external URL library call)
abstracted as `join`. -/
def segment_urls (join : String → String → String) (url text : String) :
    List String :=
  ((pySplit text "\n").filter
    (fun l => !l.isEmpty && !(pyStartsWith l "#"))).map
    (fun l => join url (pyStrip l))

/-- The sequential segment loop: fetch every segment and append its bytes;
`none` models the first `raise_for_status`/request exception aborting the
loop. -/
def writeSegs (fetchSeg : String → Except Unit (List Nat)) :
    List String → List Nat → Option (List Nat)
  | [], acc => some acc
  | s :: rest, acc =>
    match fetchSeg s with
    | .ok d => writeSegs fetchSeg rest (acc ++ d)
    | .error _ => none

/-- `download_with_custom_progress(url, filepath, ...)`: fetch the
playlist, extract segment URLs, write all segments to
`filepath + ".tmp"`, move the temp file into place on success; on any
exception remove `filepath` if it exists, remove the temp file if it was
created, and re-raise.  Network transfer is abstracted as the
`playlistFetch`/`fetchSeg` oracles. -/
def download_with_custom_progress
    (playlistFetch : String → Except Unit String)
    (fetchSeg : String → Except Unit (List Nat))
    (join : String → String → String)
    (url filepath : String) (fs : FsT) : DlResult :=
  match playlistFetch url with
  | .error _ => .err (fsRemove fs filepath)
  | .ok text =>
    let segs := segment_urls join url text
    if segs.isEmpty then .err (fsRemove fs filepath)
    else
      match writeSegs fetchSeg segs [] with
      | some content =>
        .ok (fsSet (fsRemove fs (filepath ++ ".tmp")) filepath content)
      | none => .err (fsRemove (fsRemove fs filepath) (filepath ++ ".tmp"))

/-- `for i in range(start, end+1): if 1 <= i <= total_episodes:
selected_episodes.add(i)`: the guard restricts additions to 1..total, so
iterating 1..total and testing membership in [start, end] adds the same
elements. -/
def pyRangeAdd (s e : Int) (total : Nat) (acc : List Nat) : List Nat :=
  (List.range' 1 total).foldl
    (fun a (n : Nat) =>
      if s ≤ (n : Int) ∧ (n : Int) ≤ e then setInsert a n else a) acc

/-- One iteration of `parse_episode_selection`'s token loop; the second
component collects the tokens whose `ValueError` branch printed a
warning. -/
def selPart (total : Nat) (st : List Nat × List String) (part : String) :
    List Nat × List String :=
  if strContains part "-" then
    match pySplit part "-" with
    | [a, b] =>
      match pyInt a, pyInt b with
      | some s, some e => (pyRangeAdd s e total st.1, st.2)
      | _, _ => (st.1, st.2 ++ [part])
    | _ => (st.1, st.2 ++ [part])
  else
    match pyInt part with
    | some n =>
      if 1 ≤ n ∧ n ≤ (total : Int) then (setInsert st.1 n.toNat, st.2) else st
    | none => (st.1, st.2 ++ [part])

/-- `parse_episode_selection(user_input, total_episodes)`; returns the
selected episode list (`sorted(list(selected_episodes))`) together with
the list of tokens that were skipped with a warning. -/
def parse_episode_selection (user_input : String) (total : Nat) :
    List Nat × List String :=
  if pyLower user_input = "all" then (List.range' 1 total, [])
  else
    let parts := pySplit (pyReplace user_input " " "") ","
    let st := parts.foldl (selPart total) ([], [])
    (pyNatSort st.1, st.2)

/-- Lazy tail of the regex `\{[\s\S]*?\};` after the opening brace: the
shortest run of characters up to a closing brace immediately followed by
a semicolon. -/
def upToBraceSemi : List Char → Option (List Char)
  | [] => none
  | c :: rest =>
    if c = rbrace then
      match rest with
      | ';' :: _ => some []
      | _ => (upToBraceSemi rest).map (fun tl => c :: tl)
    else (upToBraceSemi rest).map (fun tl => c :: tl)

/-- Match of `const\s+\w+\s*=\s*(\{[\s\S]*?\});` anchored at the head of
the list, returning group 1 (the brace-delimited object literal). -/
def objLitAt (l : List Char) : Option (List Char) :=
  if ("const".toList).isPrefixOf l then
    let r1 := l.drop 5
    let (ws1, r2) := r1.span isSpaceChar
    if ws1.isEmpty then none
    else
      let (w, r3) := r2.span isWordChar
      if w.isEmpty then none
      else
        let r4 := (r3.span isSpaceChar).2
        match r4 with
        | '=' :: r5 =>
          let r6 := (r5.span isSpaceChar).2
          match r6 with
          | c :: r7 =>
            if c = lbrace then
              (upToBraceSemi r7).map (fun mid => lbrace :: (mid ++ [rbrace]))
            else none
          | [] => none
        | _ => none
  else none

/-- `re.search` for the object-literal pattern: first position (left to
right) where the anchored match succeeds. -/
def searchObjLit : List Char → Option (List Char)
  | [] => none
  | c :: rest =>
    match objLitAt (c :: rest) with
    | some g => some g
    | none => searchObjLit rest

/-- Match of `LABEL\s*"([^"]+)"` anchored at the head of the list,
returning group 1. -/
def fieldAt (label : List Char) (l : List Char) : Option (List Char) :=
  if label.isPrefixOf l then
    let r1 := l.drop label.length
    let r2 := (r1.span isSpaceChar).2
    match r2 with
    | '"' :: r3 =>
      let (content, r4) := r3.span (fun c => !(c == '"'))
      if content.isEmpty then none
      else
        match r4 with
        | '"' :: _ => some content
        | _ => none
    | _ => none
  else none

/-- `re.search` for a quoted-field pattern such as `jC1kO:\s*"([^"]+)"`. -/
def searchField (label : List Char) : List Char → Option (List Char)
  | [] => none
  | c :: rest =>
    match fieldAt label (c :: rest) with
    | some g => some g
    | none => searchField label rest

/-- Body of `get_m3u8_link_from_js`'s script loop for one script string:
the marker test, the object-literal search, the four field extractions
and the URL concatenation. -/
def m3u8FromScript (s : String) : Option String :=
  if strContains s "stream.foupix.com" then
    match searchObjLit s.toList with
    | some obj =>
      match searchField "jC1kO:".toList obj with
      | some pr =>
        match searchField "hF3nV:".toList obj with
        | some dom =>
          match searchField "iA5pX:".toList obj with
          | some pa =>
            match searchField "tN4qY:".toList obj with
            | some qu =>
              some (String.mk pr ++ "://" ++ String.mk dom ++ "/" ++
                String.mk pa ++ "?" ++ String.mk qu)
            | none => none
          | none => none
        | none => none
      | none => none
    | none => none
  else none

/-- The `for script in scripts` loop (`script.string` may be `None`, such
scripts are skipped). -/
def m3u8Scan : List (Option String) → Option String
  | [] => none
  | some s :: rest =>
    match m3u8FromScript s with
    | some u => some u
    | none => m3u8Scan rest
  | none :: rest => m3u8Scan rest

/-- `get_m3u8_link_from_js(soup)`: `None` soup yields `None`; otherwise
scan the page's script strings.  Total by construction, modelling the
function's catch-all exception handler returning `None`. -/
def get_m3u8_link_from_js : Option (List (Option String)) → Option String
  | none => none
  | some scripts => m3u8Scan scripts

/-- Terminal states of the per-episode retry state machine. -/
inductive Outcome
  | Downloaded
  | Failed
deriving DecidableEq

/-- Result of one episode's retry loop: terminal state, the value of the
`attempt` counter on exit, and the final file system. -/
structure LoopResult where
  outcome : Outcome
  attempts : Nat
  fs : FsT
deriving DecidableEq

/-- The `while not download_successful and attempt < max_retries` loop of
`process_page`, with `fuel = max_retries - attempt`.  On attempts after
the first, the link is first re-resolved (`refresh`, the composition of
`get_soup` and `get_m3u8_link_from_js` on the episode page); a failed
re-resolution breaks out of the loop.  `dl attempt url fs` is the
`download_with_custom_progress` call, whose exceptions are caught and
lead to the next iteration. -/
def retryLoopAux (dl : Nat → String → FsT → DlResult)
    (refresh : Nat → Option String) :
    Nat → Nat → String → FsT → LoopResult
  | 0, attempt, _, fs => ⟨.Failed, attempt, fs⟩
  | fuel + 1, attempt, url, fs =>
    if attempt + 1 > 1 then
      match refresh (attempt + 1) with
      | none => ⟨.Failed, attempt + 1, fs⟩
      | some u =>
        match dl (attempt + 1) u fs with
        | .ok fs' => ⟨.Downloaded, attempt + 1, fs'⟩
        | .err fs' => retryLoopAux dl refresh fuel (attempt + 1) u fs'
    else
      match dl (attempt + 1) url fs with
      | .ok fs' => ⟨.Downloaded, attempt + 1, fs'⟩
      | .err fs' => retryLoopAux dl refresh fuel (attempt + 1) url fs'

/-- The per-episode download loop of `process_page` (`max_retries = 3`,
`attempt = 0`, starting from the initially resolved link). -/
def process_page_retry (dl : Nat → String → FsT → DlResult)
    (refresh : Nat → Option String) (initialUrl : String) (fs : FsT) :
    LoopResult :=
  retryLoopAux dl refresh 3 0 initialUrl fs

/-! ## stardima-extract.py -/

/-- Server names - standard stardima order. -/
def SERVER_NAMES_STANDARD : List String :=
  ["vudeo", "uqload", "mailru", "goodstream", "vk"]

/-- Server names for hyperwatching-wrapped content. -/
def SERVER_NAMES_HYPERWATCHING : List String :=
  ["uqload", "streamhg", "darkibox", "goodstream", "other"]

/-- The probed slug `f"{slug}-{season}x{ep_num}"`. -/
def test_slug (slug : String) (season ep : Nat) : String :=
  slug ++ "-" ++ toString season ++ "x" ++ toString ep

/-- Inner loop of `search_episodes`' strategy 2 for one season:
`for ep_num in range(1, 100)` with the 3-consecutive-miss early exit
(`fuel = 100 - ep`).  `probe` is the episodes-API oracle keyed by the
probed slug; an exception and an empty response both count as a miss.
Returns the probed episode numbers and the hits, in probe order. -/
def probeSeasonAux (probe : String → Option (Nat × String))
    (slug : String) (season : Nat) :
    Nat → Nat → Nat → List Nat × List (Nat × String)
  | 0, _, _ => ([], [])
  | fuel + 1, ep, misses =>
    match probe (test_slug slug season ep) with
    | some hit =>
      let r := probeSeasonAux probe slug season fuel (ep + 1) 0
      (ep :: r.1, hit :: r.2)
    | none =>
      if misses + 1 ≥ 3 then ([ep], [])
      else
        let r := probeSeasonAux probe slug season fuel (ep + 1) (misses + 1)
        (ep :: r.1, r.2)

/-- The hard-coded transliteration variants added for "witch" slugs. -/
def witchTerms : List String :=
  ["w-i-t-c-h", "w.i.t.c.h", "الفتيات الخارقات"]

/-- `search_terms` of `search_episodes`. -/
def searchTerms (slug : String) : List String :=
  [slug, pyReplace slug "-" " "] ++
    (if strContains (pyLower slug) "witch" then witchTerms else [])

/-- The flexible slug-matching test of strategy 1. -/
def strategy1Match (slug epSlugLower : String) : Bool :=
  strContains epSlugLower slug || pyStartsWith epSlugLower slug ||
    (slug == "witch" && strContains epSlugLower "w-i-t-c-h")

/-- Strategy 1 of `search_episodes`: free-text search over the search
terms, filtered by `strategy1Match`; `unquote` abstracts
`urllib.parse.unquote`, `searchApi` the episodes search endpoint (an
exception models as the empty result list, matching the swallowed
per-term failures). -/
def strategy1 (unquote : String → String)
    (searchApi : String → List (Nat × String)) (slug : String) :
    List (Nat × String) :=
  (searchTerms slug).foldl (fun d term =>
    (searchApi term).foldl (fun d e =>
      let epSlug := unquote e.2
      if strategy1Match slug (pyLower epSlug) then dictUpsert d e.1 epSlug
      else d) d) []

/-- `search_episodes(slug)`: strategy 1 then the brute-force SxE probe of
seasons 1..5.  Returns the episodes dict (id → slug, insertion ordered)
together with the log of probed (season, episode) pairs. -/
def search_episodes (unquote : String → String)
    (searchApi : String → List (Nat × String))
    (probe : String → Option (Nat × String)) (slug : String) :
    List (Nat × String) × List (Nat × Nat) :=
  let d1 := strategy1 unquote searchApi slug
  (([1, 2, 3, 4, 5] : List Nat).foldl (fun d season =>
      ((probeSeasonAux probe slug season 99 1 0).2).foldl
        (fun d hit => dictUpsert d hit.1 hit.2) d) d1,
   ([1, 2, 3, 4, 5] : List Nat).flatMap (fun season =>
      ((probeSeasonAux probe slug season 99 1 0).1).map (fun e => (season, e))))

/-- Match of `(\d+)x(\d+)` anchored at the head of the list. -/
def sxeAt (l : List Char) : Option (List Char × List Char) :=
  let (d1, rest) := l.span Char.isDigit
  if d1.isEmpty then none
  else
    match rest with
    | 'x' :: r2 =>
      let d2 := (r2.span Char.isDigit).1
      if d2.isEmpty then none else some (d1, d2)
    | _ => none

/-- `re.search(r'(\d+)x(\d+)', slug)`. -/
def findSxE : List Char → Option (List Char × List Char)
  | [] => none
  | c :: rest =>
    match sxeAt (c :: rest) with
    | some g => some g
    | none => findSxE rest

/-- Group 1 of `re.search(r'(\d+)$', slug)` (empty when no match). -/
def trailingDigits (l : List Char) : List Char :=
  ((l.reverse.span Char.isDigit).1).reverse

/-- `parse_episode_key(ep_id, slug)`. -/
def parse_episode_key (ep_id : Nat) (slug : String) : String :=
  match findSxE slug.toList with
  | some g => "S" ++ String.mk g.1 ++ "E" ++ String.mk g.2
  | none =>
    if strContains slug "الحلق" ||
        strContains (pyLower slug) "%d8%a7%d9%84%d8%ad%d9%84%d9%82" then
      let td := trailingDigits slug.toList
      if td.isEmpty then "S1E1" else "S1E" ++ String.mk td
    else "E" ++ toString ep_id

/-- The single-quote character (written via its code point). -/
def squote : Char := Char.ofNat 39

/-- The regex character class `["\']`. -/
def isQuote (c : Char) : Bool :=
  c == '"' || c == squote

/-- Match of `LABEL\s*["\']([^"\']+)["\']` anchored at the head. -/
def fieldAtQ (label : List Char) (l : List Char) : Option (List Char) :=
  if label.isPrefixOf l then
    let r1 := l.drop label.length
    let r2 := (r1.span isSpaceChar).2
    match r2 with
    | q :: r3 =>
      if isQuote q then
        let (content, r4) := r3.span (fun c => !(isQuote c))
        if content.isEmpty then none
        else
          match r4 with
          | q2 :: _ => if isQuote q2 then some content else none
          | [] => none
      else none
    | [] => none
  else none

/-- `re.search` for a quoted-field pattern with the `["\']` quote class
(used for the `csrf:` token). -/
def searchFieldQ (label : List Char) : List Char → Option (List Char)
  | [] => none
  | c :: rest =>
    match fieldAtQ label (c :: rest) with
    | some g => some g
    | none => searchFieldQ label rest

/-- Lazy run of `(.*?)]` : the shortest prefix before the first stop
character. -/
def upToChar (stopc : Char) : List Char → Option (List Char)
  | [] => none
  | c :: rest =>
    if c = stopc then some []
    else (upToChar stopc rest).map (fun tl => c :: tl)

/-- Match of `servers:\s*\[(.*?)\]` (DOTALL) anchored at the head. -/
def serversBlockAt (l : List Char) : Option (List Char) :=
  if ("servers:".toList).isPrefixOf l then
    let r1 := l.drop 8
    let r2 := (r1.span isSpaceChar).2
    match r2 with
    | '[' :: r3 => upToChar ']' r3
    | _ => none
  else none

/-- `re.search` for the servers block. -/
def searchServersBlock : List Char → Option (List Char)
  | [] => none
  | c :: rest =>
    match serversBlockAt (c :: rest) with
    | some g => some g
    | none => searchServersBlock rest

/-- Match of `id:\s*["\'](\d+)["\']` anchored at the head, returning the
captured digits and the number of characters consumed by the match. -/
def matchIdAt (l : List Char) : Option (String × Nat) :=
  if ("id:".toList).isPrefixOf l then
    let r1 := l.drop 3
    let (ws, r2) := r1.span isSpaceChar
    match r2 with
    | q :: r3 =>
      if isQuote q then
        let (ds, r4) := r3.span Char.isDigit
        if ds.isEmpty then none
        else
          match r4 with
          | q2 :: _ =>
            if isQuote q2 then
              some (String.mk ds, 3 + ws.length + 1 + ds.length + 1)
            else none
          | [] => none
      else none
    | [] => none
  else none

/-- Match of `name:\s*["\']([^"\']+)["\']` anchored at the head, with the
consumed length. -/
def matchNameAt (l : List Char) : Option (String × Nat) :=
  if ("name:".toList).isPrefixOf l then
    let r1 := l.drop 5
    let (ws, r2) := r1.span isSpaceChar
    match r2 with
    | q :: r3 =>
      if isQuote q then
        let (content, r4) := r3.span (fun c => !(isQuote c))
        if content.isEmpty then none
        else
          match r4 with
          | q2 :: _ =>
            if isQuote q2 then
              some (String.mk content, 5 + ws.length + 1 + content.length + 1)
            else none
          | [] => none
      else none
    | [] => none
  else none

/-- `re.findall` driver: scan left to right, restart after the end of
each match (non-overlapping matches), advance one character on failure.
`fuel` starts at the list length, which bounds the scan. -/
def findAllAux (step : List Char → Option (String × Nat)) :
    Nat → List Char → List String
  | 0, _ => []
  | _ + 1, [] => []
  | fuel + 1, c :: rest =>
    match step (c :: rest) with
    | some g => g.1 :: findAllAux step fuel ((c :: rest).drop (max g.2 1))
    | none => findAllAux step fuel rest

/-- `re.findall(r'id:\s*["\'](\d+)["\']', servers_text)`. -/
def findAllIds (l : List Char) : List String :=
  findAllAux matchIdAt l.length l

/-- `re.findall(r'name:\s*["\']([^"\']+)["\']', servers_text)`. -/
def findAllNames (l : List Char) : List String :=
  findAllAux matchNameAt l.length l

/-- Fields read from the wrapper's per-server link JSON response
(`link_data.get("success")`, `link_data.get("watch_url", "")` with
Python falsiness for the empty string). -/
structure LinkData where
  success : Bool
  watch_url : String
deriving DecidableEq

/-- One iteration of `resolve_hyperwatching`'s per-server loop: an
authenticated POST for the (server-id, server-name) pair `p`, keeping
`{name.lower(): url}` for a successful response with a nonempty URL; a
request exception contributes nothing. -/
def collectStep (linkApi : String → String → String → Except Unit LinkData)
    (api_url csrf_token : String) (results : List (String × String))
    (p : String × String) : List (String × String) :=
  match linkApi api_url csrf_token p.1 with
  | .ok ld =>
    if ld.success ∧ ld.watch_url ≠ "" then
      dictUpsert results (pyLower p.2) ld.watch_url
    else results
  | .error _ => results

/-- The per-server resolution loop of `resolve_hyperwatching`. -/
def collectServers (linkApi : String → String → String → Except Unit LinkData)
    (api_url csrf_token : String) (pairs : List (String × String)) :
    List (String × String) :=
  pairs.foldl (collectStep linkApi api_url csrf_token) []

/-- `iframe_url.split("/iframe/")[-1].split("/")[0].split("?")[0]`. -/
def video_id_of (iframe_url : String) : String :=
  (pySplit ((pySplit ((pySplit iframe_url "/iframe/").getLastD "")
    "/").headD "") "?").headD ""

/-- `f"https://hyperwatching.com/api/videos/{video_id}/link"`. -/
def hyper_api_url (iframe_url : String) : String :=
  "https://hyperwatching.com/api/videos/" ++ video_id_of iframe_url ++ "/link"

/-- The CSRF token scraped from the iframe page (`""` when the
`csrf:` pattern does not match). -/
def csrf_of (html_content : String) : String :=
  match searchFieldQ ("csrf:".toList) html_content.toList with
  | some t => String.mk t
  | none => ""

/-- `resolve_hyperwatching(iframe_url)`: fetch the iframe page
(`pageFetch`), scrape the CSRF token and server list with the regex
scanners, resolve each server (`linkApi`), and fall back to the
singleton `{"hyperwatching": iframe_url}` when the page fetch raises,
the server list is missing, or no server resolves. -/
def resolve_hyperwatching (pageFetch : String → Except Unit String)
    (linkApi : String → String → String → Except Unit LinkData)
    (iframe_url : String) : List (String × String) :=
  match pageFetch iframe_url with
  | .error _ => [("hyperwatching", iframe_url)]
  | .ok html_content =>
    match searchServersBlock html_content.toList with
    | none => [("hyperwatching", iframe_url)]
    | some st =>
      let results :=
        collectServers linkApi (hyper_api_url iframe_url) (csrf_of html_content)
          ((findAllIds st).zip (findAllNames st))
      if results.isEmpty then [("hyperwatching", iframe_url)] else results

/-- Outcome of decoding one AJAX server slot in `get_video_urls`. -/
inductive SlotOutcome
  | absent
  | direct (url : String)
  | wrapper (url : String)
deriving DecidableEq

/-- `decoded.split("url=")[-1] if "url=" in decoded else decoded`. -/
def pyAfterUrlMarker (decoded : String) : String :=
  if strContains decoded "url=" then (pySplit decoded "url=").getLastD decoded
  else decoded

/-- One slot of `get_video_urls`' loop: the AJAX response's `embed_url`
field (`resp`, an exception or the possibly empty base64 string) is
base64-decoded, the `url=` wrapper marker is stripped, and a
hyperwatching iframe URL is set aside instead of being recorded. -/
def decodeSlot (resp : Except Unit String) : SlotOutcome :=
  match resp with
  | .error _ => .absent
  | .ok embed_b64 =>
    if embed_b64 = "" then .absent
    else
      match b64decodeUtf8 embed_b64 with
      | none => .absent
      | some decoded =>
        let actual := pyAfterUrlMarker decoded
        if strContains actual "hyperwatching.com/iframe/" then .wrapper actual
        else .direct actual

/-- The slot value appended to `servers` (a wrapper slot appends `None`). -/
def slotValue : SlotOutcome → Option String
  | .direct u => some u
  | _ => none

/-- The final value of the `hyperwatching_url` variable (overwritten on
each wrapper slot, so the last one wins). -/
def lastWrapper (outs : List SlotOutcome) : Option String :=
  outs.foldl (fun acc o =>
    match o with
    | .wrapper u => some u
    | _ => acc) none

/-- The remap of a resolved hyperwatching result onto the five wrapped
slots (`resolved.get("earnvids") or resolved.get("streamhg")` uses
Python `or`). -/
def hyperRemap (resolved : List (String × String)) : List (Option String) :=
  [resolved.lookup "uqload",
   pyOr (resolved.lookup "earnvids") (resolved.lookup "streamhg"),
   resolved.lookup "darkibox",
   resolved.lookup "goodstream",
   resolved.lookup "hyperwatching"]

/-- `get_video_urls(ep_id)`: run the five AJAX slots, and when a
hyperwatching URL was seen and every slot ended `None`, resolve it
(`resolver` abstracts `resolve_hyperwatching`) and remap onto the
wrapped name order.  Returns `(servers_list, is_hyperwatching)`. -/
def get_video_urls (ajax : Nat → Nat → Except Unit String)
    (resolver : String → List (String × String)) (ep_id : Nat) :
    List (Option String) × Bool :=
  let outs := (List.range' 1 5).map (fun n => decodeSlot (ajax ep_id n))
  let servers := outs.map slotValue
  match lastWrapper outs with
  | some hw =>
    if servers.all (fun s => s.isNone) then (hyperRemap (resolver hw), true)
    else (servers, false)
  | none => (servers, false)

/-- A resolved episode of the legacy path (`fetch_episode`'s returned
dict; `servers` is `dict(zip(server_names, servers))` as an
insertion-ordered association list). -/
structure EpisodeData where
  episode : String
  post_id : Nat
  slug : String
  servers : List (String × Option String)
  is_hyperwatching : Bool
deriving DecidableEq

/-- `fetch_episode(ep_id, slug)`. -/
def fetch_episode (ajax : Nat → Nat → Except Unit String)
    (resolver : String → List (String × String))
    (ep_id : Nat) (slug : String) : EpisodeData :=
  let r := get_video_urls ajax resolver ep_id
  let server_names :=
    if r.2 then SERVER_NAMES_HYPERWATCHING else SERVER_NAMES_STANDARD
  { episode := parse_episode_key ep_id slug
    post_id := ep_id
    slug := slug
    servers := server_names.zip r.1
    is_hyperwatching := r.2 }

/-- The episode JSON fields read by `fetch_new_episode` (after the
`data.get("episode", data)` and default-value logic). -/
structure NewEpisodeJson where
  watch_url : String
  season : Nat
  number : Nat
deriving DecidableEq

/-- A resolved episode of the new-site path (`fetch_new_episode`'s
returned dict; `servers` maps server names to URLs). -/
structure NewEpisodeData where
  episode : String
  post_id : Nat
  slug : String
  servers : List (String × String)
  is_hyperwatching : Bool
  raw_url : String
deriving DecidableEq

/-- `fetch_new_episode(show_id, ep_id)`: `epApi` is the episode-detail
endpoint oracle (`none` covers a non-200 status, a JSON error or a
request exception, all of which make the function return `None`). -/
def fetch_new_episode (resolver : String → List (String × String))
    (epApi : Option NewEpisodeJson) (show_id : String) (ep_id : Nat) :
    Option NewEpisodeData :=
  match epApi with
  | none => none
  | some ep =>
    let epKey := "S" ++ toString ep.season ++ "E" ++ toString ep.number
    let epSlug :=
      show_id ++ "-" ++ toString ep.season ++ "x" ++ toString ep.number
    if strContains ep.watch_url "hyperwatching.com/iframe/" then
      some { episode := epKey, post_id := ep_id, slug := epSlug,
             servers := resolver ep.watch_url, is_hyperwatching := true,
             raw_url := ep.watch_url }
    else if ep.watch_url ≠ "" then
      some { episode := epKey, post_id := ep_id, slug := epSlug,
             servers := [("direct", ep.watch_url)], is_hyperwatching := false,
             raw_url := ep.watch_url }
    else none

/-- Match of `[?&]id=([^&]+)` anchored at the head. -/
def idParamAt (l : List Char) : Option (List Char) :=
  match l with
  | c :: rest =>
    if (c = '?' ∨ c = '&') ∧ ("id=".toList).isPrefixOf rest then
      let content := ((rest.drop 3).span (fun ch => !(ch == '&'))).1
      if content.isEmpty then none else some content
    else none
  | [] => none

/-- `re.search(r'[?&]id=([^&]+)', url)`. -/
def searchIdParam : List Char → Option (List Char)
  | [] => none
  | c :: rest =>
    match idParamAt (c :: rest) with
    | some g => some g
    | none => searchIdParam rest

/-- `unwrap_video_url(url)` (`unquote` abstracts
`urllib.parse.unquote`). -/
def unwrap_video_url (unquote : String → String) (url : String) : String :=
  if strContains url "strema.top/embed" ∧ strContains url "id=" then
    match searchIdParam url.toList with
    | some g => unquote (String.mk g)
    | none => url
  else url

/-- `[(name, url) for name, url in servers.items() if url]` (Python
falsiness drops both `None` and `""`). -/
def valid_urls (servers : List (String × Option String)) :
    List (String × String) :=
  servers.filterMap (fun e =>
    match e.2 with
    | some u => if u = "" then none else some (e.1, u)
    | none => none)

/-- The skip-server filter (`if skip_servers:` — an empty list is falsy
and disables the filter). -/
def apply_skip (skip : Option (List String)) (l : List (String × String)) :
    List (String × String) :=
  match skip with
  | some S =>
    if S.isEmpty then l
    else
      let ss := S.map pyLower
      l.filter (fun e => !(ss.contains (pyLower e.1)))
  | none => l

/-- `{s.lower(): i for i, s in enumerate(preferred_servers)}.get(
name.lower(), 999)`: the dict comprehension keeps the LAST index of a
duplicated name, and absent names map to 999. -/
def pref_key (P : List String) (name : String) : Nat :=
  match (P.map pyLower).reverse.findIdx? (fun s => s == pyLower name) with
  | some j => P.length - 1 - j
  | none => 999

/-- The preferred-server reordering (`if preferred_servers:` — an empty
list is falsy and disables the sort). -/
def apply_preferred (preferred : Option (List String))
    (l : List (String × String)) : List (String × String) :=
  match preferred with
  | some P => if P.isEmpty then l else pySortByKey (fun e => pref_key P e.1) l
  | none => l

/-- The candidate list `download_episode` iterates over, in order:
validity filter, skip filter, preferred-server stable sort. -/
def candidate_order (servers : List (String × Option String))
    (preferred skip : Option (List String)) : List (String × String) :=
  apply_preferred preferred (apply_skip skip (valid_urls servers))

/-- The `for server_name, url in valid_urls` loop of `download_episode`:
unwrap each URL and try it with the external downloader (`dlOk`
abstracts the `yt_dlp` call: `true` = downloaded, `false` = raised);
stop at the first success.  Returns the success flag and the list of
candidates actually tried. -/
def tryServers (dlOk : String → Bool) (unquote : String → String) :
    List (String × String) → Bool × List (String × String)
  | [] => (false, [])
  | e :: rest =>
    if dlOk (unwrap_video_url unquote e.2) then (true, [e])
    else
      let r := tryServers dlOk unquote rest
      (r.1, e :: r.2)

/-- `download_episode(episode_data, ...)` restricted to its engine: the
candidate ordering and the try-until-success loop (filename/sanitization
output is out of scope per the spec).  Returns `(success, tried)`. -/
def download_episode (dlOk : String → Bool) (unquote : String → String)
    (servers : List (String × Option String))
    (preferred skip : Option (List String)) : Bool × List (String × String) :=
  tryServers dlOk unquote (candidate_order servers preferred skip)

/-! ## Concrete oracles used to exercise the models -/

/-- A wrapper resolver that never resolves anything. -/
def emptyResolver : String → List (String × String) := fun _ => []

/-- A playlist fetch that always succeeds with a two-segment playlist. -/
def okPlaylist : String → Except Unit String := fun _ => .ok "seg1\nseg2"

/-- A segment fetch that always succeeds with one byte. -/
def okSeg : String → Except Unit (List Nat) := fun _ => .ok [7]

/-- A segment fetch that always raises. -/
def failSeg : String → Except Unit (List Nat) := fun _ => .error ()

/-- A URL join oracle that keeps the playlist line. -/
def joinRight : String → String → String := fun _ l => l

/-- A link refresh that never resolves a new URL. -/
def noRefresh : Nat → Option String := fun _ => none

/-- A link refresh that always resolves. -/
def c2refresh : Nat → Option String := fun _ => some "refreshed"

/-- A segmented transport that fails on attempts 1 and 2 and succeeds on
attempt 3. -/
def c2segFF (n : Nat) : String → Except Unit (List Nat) :=
  fun _ => if n ≤ 2 then .error () else .ok [7]

/-- The per-attempt download call built from `c2segFF`. -/
def c2dlFF (n : Nat) (u : String) (fs : FsT) : DlResult :=
  download_with_custom_progress okPlaylist (c2segFF n) joinRight u "out.mp4" fs

/-- A per-attempt download call whose segment fetch always fails. -/
def c2dlFail (_ : Nat) (u : String) (fs : FsT) : DlResult :=
  download_with_custom_progress okPlaylist failSeg joinRight u "out.mp4" fs

/-- Probe responses for a synthetic season 1 with exactly episodes 1..12
(episode id = episode number). -/
def c3table : List (String × (Nat × String)) :=
  (List.range' 1 12).map
    (fun e => (test_slug "show" 1 e, (e, test_slug "show" 1 e)))

/-- The synthetic probe oracle: hits on season 1 episodes 1..12, misses
everywhere else. -/
def c3probe (s : String) : Option (Nat × String) := c3table.lookup s

/-- A search API returning no results for any term. -/
def c3noSearch : String → List (Nat × String) := fun _ => []

/-- A probe oracle that always misses. -/
def noProbe : String → Option (Nat × String) := fun _ => none

/-- AJAX oracle: slot 1 answers base64 of a direct URL, slot 2 answers
base64 of `https://hyperwatching.com/iframe/abc123`, the rest raise. -/
def c4ajax : Nat → Nat → Except Unit String := fun _ n =>
  if n = 1 then .ok "aHR0cHM6Ly9kaXJlY3QuZXhhbXBsZS92"
  else if n = 2 then .ok "aHR0cHM6Ly9oeXBlcndhdGNoaW5nLmNvbS9pZnJhbWUvYWJjMTIz"
  else .error ()

/-- AJAX oracle: only slot 2 answers (the hyperwatching URL), the rest
raise. -/
def c4ajaxB : Nat → Nat → Except Unit String := fun _ n =>
  if n = 2 then .ok "aHR0cHM6Ly9oeXBlcndhdGNoaW5nLmNvbS9pZnJhbWUvYWJjMTIz"
  else .error ()

/-- A wrapper resolver answering a single uqload URL. -/
def c4resolverA : String → List (String × String) :=
  fun _ => [("uqload", "https://uq.example/v")]

/-- A page fetch that always raises. -/
def c6errFetch : String → Except Unit String := fun _ => .error ()

/-- A link API that always raises. -/
def c6noApi : String → String → String → Except Unit LinkData :=
  fun _ _ _ => .error ()

/-- A wrapper iframe page holding a CSRF token and two servers. -/
def c6html : String :=
  "window.player = \x7b csrf: 'tok123', servers: [ \x7bid: '11', name: 'Uqload'\x7d, \x7bid: '22', name: 'DarkiBox'\x7d ] \x7d;"

/-- A page fetch answering `c6html`. -/
def c6pageOk : String → Except Unit String := fun _ => .ok c6html

/-- A link API where server 11 resolves and server 22 reports failure. -/
def c6apiPartial : String → String → String → Except Unit LinkData :=
  fun _ _ sid =>
    if sid = "11" then .ok ⟨true, "https://uq.example/v"⟩
    else .ok ⟨false, "ignored"⟩

/-- Characterization of the selection tokens whose processing raises
`ValueError` (and hence prints a warning): a ranged token that does not
split into exactly two integers, or a plain token that is not an
integer.  Out-of-range integers do NOT satisfy this predicate — the
code discards them silently. -/
def partWarns (part : String) : Bool :=
  if strContains part "-" then
    match pySplit part "-" with
    | [a, b] => (pyInt a).isNone || (pyInt b).isNone
    | _ => true
  else (pyInt part).isNone

/-- A script containing the player marker, the object literal and all
four obfuscated fields. -/
def c5goodScript : String :=
  "var x = 1; const cfg = \x7bjC1kO: \"https\", hF3nV: \"stream.foupix.com\", iA5pX: \"hls/video.m3u8\", tN4qY: \"token=abc\"\x7d; play();"

/-- Like `c5goodScript` but with the fourth field missing. -/
def c5badScript : String :=
  "var x = 1; const cfg = \x7bjC1kO: \"https\", hF3nV: \"stream.foupix.com\", iA5pX: \"hls/video.m3u8\"\x7d; play();"

/-- A five-server episode mapping in discovery order. -/
def c9servers : List (String × Option String) :=
  [("vudeo", some "u1"), ("uqload", some "u2"), ("mailru", none),
   ("goodstream", some "u4"), ("vk", some "u5")]

/-- A preferred list with 1000 entries, whose last entry "z" sits at
index 999 — the same value as the absent-name default key. -/
def c9bigP : List String := List.replicate 999 "x" ++ ["z"]

/-- A file system holding a previously completed download at the final
path. -/
def c10fs : FsT := [("out.mp4", [1, 2, 3])]

/-! ## General lemmas about the file-system model -/

theorem fsGet_cons (e : String × List Nat) (tl : FsT) (q : String) :
    fsGet (e :: tl) q = if e.1 = q then some e.2 else fsGet tl q := by
  by_cases h : e.1 = q <;> simp [fsGet, List.find?_cons, h]

theorem fsRemove_cons (e : String × List Nat) (tl : FsT) (p : String) :
    fsRemove (e :: tl) p =
      if e.1 = p then fsRemove tl p else e :: fsRemove tl p := by
  by_cases h : e.1 = p <;> simp [fsRemove, List.filter_cons, h]

theorem fsGet_fsRemove_self (fs : FsT) (p : String) :
    fsGet (fsRemove fs p) p = none := by
  induction fs with
  | nil => rfl
  | cons e tl ih =>
    rw [fsRemove_cons]
    by_cases h1 : e.1 = p
    · rw [if_pos h1]; exact ih
    · rw [if_neg h1, fsGet_cons, if_neg h1]; exact ih

theorem fsGet_fsRemove_ne (fs : FsT) (p q : String) (h : q ≠ p) :
    fsGet (fsRemove fs p) q = fsGet fs q := by
  induction fs with
  | nil => rfl
  | cons e tl ih =>
    rw [fsRemove_cons]
    by_cases h1 : e.1 = p
    · rw [if_pos h1, ih, fsGet_cons,
        if_neg (fun hc => h (hc.symm.trans h1))]
    · rw [if_neg h1, fsGet_cons, fsGet_cons]
      by_cases h2 : e.1 = q
      · rw [if_pos h2, if_pos h2]
      · rw [if_neg h2, if_neg h2]; exact ih

theorem fsGet_append_single (l : FsT) (p q : String) (c : List Nat) :
    fsGet (l ++ [(p, c)]) q =
      match fsGet l q with
      | some v => some v
      | none => if p = q then some c else none := by
  induction l with
  | nil => by_cases h : p = q <;> simp [fsGet, List.find?_cons, h]
  | cons e tl ih =>
    rw [List.cons_append, fsGet_cons, fsGet_cons]
    by_cases h : e.1 = q
    · rw [if_pos h, if_pos h]
    · rw [if_neg h, if_neg h]; exact ih

theorem fsGet_fsSet_self (fs : FsT) (p : String) (c : List Nat) :
    fsGet (fsSet fs p c) p = some c := by
  rw [fsSet, fsGet_append_single, fsGet_fsRemove_self]
  simp

theorem fsGet_fsSet_ne (fs : FsT) (p q : String) (c : List Nat) (h : q ≠ p) :
    fsGet (fsSet fs p c) q = fsGet fs q := by
  rw [fsSet, fsGet_append_single, fsGet_fsRemove_ne fs p q h]
  cases hf : fsGet fs q with
  | some v => rfl
  | none =>
    show (if p = q then some c else none) = none
    rw [if_neg (fun hc : p = q => h hc.symm)]

theorem append_tmp_ne (s : String) : s ++ ".tmp" ≠ s := by
  intro h
  have hlen := congrArg String.length h
  rw [String.length_append] at hlen
  have h4 : (".tmp" : String).length = 4 := rfl
  omega

theorem writeSegs_ok_mem (fetchSeg : String → Except Unit (List Nat))
    (segs : List String) (acc c : List Nat)
    (h : writeSegs fetchSeg segs acc = some c) :
    ∀ s ∈ segs, ∃ d, fetchSeg s = .ok d := by
  induction segs generalizing acc with
  | nil => simp
  | cons s tl ih =>
    intro x hx
    simp only [writeSegs] at h
    cases hf : fetchSeg s with
    | ok d =>
      rw [hf] at h
      rcases List.mem_cons.mp hx with hx | hx
      · exact ⟨d, hx ▸ hf⟩
      · exact ih (acc ++ d) h x hx
    | error e => rw [hf] at h; cases h

/-! ### Branch equations for the segmented downloader -/

theorem dl_eq_of_playlist_error (playlistFetch : String → Except Unit String)
    (fetchSeg : String → Except Unit (List Nat))
    (join : String → String → String) (url filepath : String) (fs : FsT)
    (e : Unit) (hpl : playlistFetch url = .error e) :
    download_with_custom_progress playlistFetch fetchSeg join url filepath fs =
      .err (fsRemove fs filepath) := by
  unfold download_with_custom_progress
  rw [hpl]

theorem dl_eq_of_empty (playlistFetch : String → Except Unit String)
    (fetchSeg : String → Except Unit (List Nat))
    (join : String → String → String) (url filepath : String) (fs : FsT)
    (text : String) (hpl : playlistFetch url = .ok text)
    (hs : (segment_urls join url text).isEmpty = true) :
    download_with_custom_progress playlistFetch fetchSeg join url filepath fs =
      .err (fsRemove fs filepath) := by
  unfold download_with_custom_progress
  rw [hpl]
  simp only [hs, if_true]

theorem dl_eq_of_write_ok (playlistFetch : String → Except Unit String)
    (fetchSeg : String → Except Unit (List Nat))
    (join : String → String → String) (url filepath : String) (fs : FsT)
    (text : String) (content : List Nat) (hpl : playlistFetch url = .ok text)
    (hs : (segment_urls join url text).isEmpty = false)
    (hw : writeSegs fetchSeg (segment_urls join url text) [] = some content) :
    download_with_custom_progress playlistFetch fetchSeg join url filepath fs =
      .ok (fsSet (fsRemove fs (filepath ++ ".tmp")) filepath content) := by
  unfold download_with_custom_progress
  rw [hpl]
  simp only [hs, Bool.false_eq_true, if_false, hw]

theorem dl_eq_of_write_err (playlistFetch : String → Except Unit String)
    (fetchSeg : String → Except Unit (List Nat))
    (join : String → String → String) (url filepath : String) (fs : FsT)
    (text : String) (hpl : playlistFetch url = .ok text)
    (hs : (segment_urls join url text).isEmpty = false)
    (hw : writeSegs fetchSeg (segment_urls join url text) [] = none) :
    download_with_custom_progress playlistFetch fetchSeg join url filepath fs =
      .err (fsRemove (fsRemove fs filepath) (filepath ++ ".tmp")) := by
  unfold download_with_custom_progress
  rw [hpl]
  simp only [hs, Bool.false_eq_true, if_false, hw]

/-- C7: for every download attempt of the segmented-stream transport,
output is written to the `filepath + ".tmp"` temporary path and moved to
the final path only after every segment was fetched and written
(success requires the playlist fetch to succeed, a nonempty segment
list, and every segment fetch to succeed, and then the final path holds
exactly the accumulated segment bytes with the temp file gone); on every
failure path the temporary file is removed, so given that no temp file
predates the attempt, none remains after a failed attempt. -/
theorem C7_download_temp_file_discipline
    (playlistFetch : String → Except Unit String)
    (fetchSeg : String → Except Unit (List Nat))
    (join : String → String → String) (url filepath : String) (fs : FsT)
    (h : fsGet fs (filepath ++ ".tmp") = none) :
    (∀ fs', download_with_custom_progress playlistFetch fetchSeg join url
        filepath fs = .err fs' → fsGet fs' (filepath ++ ".tmp") = none) ∧
    (∀ fs', download_with_custom_progress playlistFetch fetchSeg join url
        filepath fs = .ok fs' →
      fsGet fs' (filepath ++ ".tmp") = none ∧
      ∃ text content, playlistFetch url = .ok text ∧
        segment_urls join url text ≠ [] ∧
        writeSegs fetchSeg (segment_urls join url text) [] = some content ∧
        fsGet fs' filepath = some content ∧
        ∀ s ∈ segment_urls join url text, ∃ d, fetchSeg s = .ok d) := by
  constructor
  · intro fs' herr
    cases hpl : playlistFetch url with
    | error e =>
      rw [dl_eq_of_playlist_error playlistFetch fetchSeg join url filepath fs e
        hpl] at herr
      injection herr with he
      rw [← he,
        fsGet_fsRemove_ne fs filepath (filepath ++ ".tmp") (append_tmp_ne filepath)]
      exact h
    | ok text =>
      cases hseg : (segment_urls join url text).isEmpty with
      | true =>
        rw [dl_eq_of_empty playlistFetch fetchSeg join url filepath fs text hpl
          hseg] at herr
        injection herr with he
        rw [← he,
          fsGet_fsRemove_ne fs filepath (filepath ++ ".tmp") (append_tmp_ne filepath)]
        exact h
      | false =>
        cases hw : writeSegs fetchSeg (segment_urls join url text) [] with
        | some content =>
          rw [dl_eq_of_write_ok playlistFetch fetchSeg join url filepath fs text
            content hpl hseg hw] at herr
          cases herr
        | none =>
          rw [dl_eq_of_write_err playlistFetch fetchSeg join url filepath fs
            text hpl hseg hw] at herr
          injection herr with he
          rw [← he]
          exact fsGet_fsRemove_self (fsRemove fs filepath) (filepath ++ ".tmp")
  · intro fs' hok
    cases hpl : playlistFetch url with
    | error e =>
      rw [dl_eq_of_playlist_error playlistFetch fetchSeg join url filepath fs e
        hpl] at hok
      cases hok
    | ok text =>
      cases hseg : (segment_urls join url text).isEmpty with
      | true =>
        rw [dl_eq_of_empty playlistFetch fetchSeg join url filepath fs text hpl
          hseg] at hok
        cases hok
      | false =>
        cases hw : writeSegs fetchSeg (segment_urls join url text) [] with
        | none =>
          rw [dl_eq_of_write_err playlistFetch fetchSeg join url filepath fs
            text hpl hseg hw] at hok
          cases hok
        | some content =>
          rw [dl_eq_of_write_ok playlistFetch fetchSeg join url filepath fs text
            content hpl hseg hw] at hok
          injection hok with he
          refine ⟨?_, text, content, rfl, ?_, hw, ?_, ?_⟩
          · rw [← he, fsGet_fsSet_ne _ filepath _ content (append_tmp_ne filepath)]
            exact fsGet_fsRemove_self fs (filepath ++ ".tmp")
          · intro hnil
            rw [hnil] at hseg
            simp at hseg
          · rw [← he]
            exact fsGet_fsSet_self _ filepath content
          · exact writeSegs_ok_mem fetchSeg _ [] content hw

/-- C7 witness: instantiating the temp-file discipline at a concrete
successful two-segment download from the empty file system. -/
theorem C7_witness :
    fsGet [("out.mp4", [7, 7])] ("out.mp4" ++ ".tmp") = none :=
  ((C7_download_temp_file_discipline okPlaylist okSeg joinRight "u" "out.mp4"
      [] rfl).2 [("out.mp4", [7, 7])] (by decide)).1

/-- C10: whenever a segmented-stream download attempt fails with an
exception, the cleanup removes any file at the final destination path —
including a previously completed file that sat there before the attempt
— while every path other than the final path and its temp twin is left
untouched; concretely, an attempt over a pre-existing completed
`out.mp4` whose segment fetch fails leaves an empty file system. -/
theorem C10_failed_attempt_deletes_final
    (playlistFetch : String → Except Unit String)
    (fetchSeg : String → Except Unit (List Nat))
    (join : String → String → String) (url filepath : String) (fs : FsT) :
    (∀ fs', download_with_custom_progress playlistFetch fetchSeg join url
        filepath fs = .err fs' → fsGet fs' filepath = none) ∧
    (∀ fs' p, download_with_custom_progress playlistFetch fetchSeg join url
        filepath fs = .err fs' → p ≠ filepath → p ≠ filepath ++ ".tmp" →
        fsGet fs' p = fsGet fs p) ∧
    download_with_custom_progress okPlaylist failSeg joinRight "u" "out.mp4"
      c10fs = .err [] := by
  refine ⟨?_, ?_, by decide⟩
  · intro fs' herr
    cases hpl : playlistFetch url with
    | error e =>
      rw [dl_eq_of_playlist_error playlistFetch fetchSeg join url filepath fs e
        hpl] at herr
      injection herr with he
      rw [← he]
      exact fsGet_fsRemove_self fs filepath
    | ok text =>
      cases hseg : (segment_urls join url text).isEmpty with
      | true =>
        rw [dl_eq_of_empty playlistFetch fetchSeg join url filepath fs text hpl
          hseg] at herr
        injection herr with he
        rw [← he]
        exact fsGet_fsRemove_self fs filepath
      | false =>
        cases hw : writeSegs fetchSeg (segment_urls join url text) [] with
        | some content =>
          rw [dl_eq_of_write_ok playlistFetch fetchSeg join url filepath fs text
            content hpl hseg hw] at herr
          cases herr
        | none =>
          rw [dl_eq_of_write_err playlistFetch fetchSeg join url filepath fs
            text hpl hseg hw] at herr
          injection herr with he
          rw [← he,
            fsGet_fsRemove_ne _ _ filepath (fun hc => append_tmp_ne filepath hc.symm)]
          exact fsGet_fsRemove_self fs filepath
  · intro fs' p herr hp ht
    cases hpl : playlistFetch url with
    | error e =>
      rw [dl_eq_of_playlist_error playlistFetch fetchSeg join url filepath fs e
        hpl] at herr
      injection herr with he
      rw [← he]
      exact fsGet_fsRemove_ne fs filepath p hp
    | ok text =>
      cases hseg : (segment_urls join url text).isEmpty with
      | true =>
        rw [dl_eq_of_empty playlistFetch fetchSeg join url filepath fs text hpl
          hseg] at herr
        injection herr with he
        rw [← he]
        exact fsGet_fsRemove_ne fs filepath p hp
      | false =>
        cases hw : writeSegs fetchSeg (segment_urls join url text) [] with
        | some content =>
          rw [dl_eq_of_write_ok playlistFetch fetchSeg join url filepath fs text
            content hpl hseg hw] at herr
          cases herr
        | none =>
          rw [dl_eq_of_write_err playlistFetch fetchSeg join url filepath fs
            text hpl hseg hw] at herr
          injection herr with he
          rw [← he, fsGet_fsRemove_ne _ _ p ht]
          exact fsGet_fsRemove_ne fs filepath p hp

/-- C10 witness: the general deletion property applied to the concrete
failing attempt over a pre-existing completed file. -/
theorem C10_witness : fsGet ([] : FsT) "out.mp4" = none :=
  (C10_failed_attempt_deletes_final okPlaylist failSeg joinRight "u" "out.mp4"
      c10fs).1 [] (by decide)

/-! ### The per-episode retry loop -/

theorem retryLoopAux_attempts_le (dl : Nat → String → FsT → DlResult)
    (refresh : Nat → Option String) :
    ∀ (fuel attempt : Nat) (url : String) (fs : FsT),
      (retryLoopAux dl refresh fuel attempt url fs).attempts ≤ attempt + fuel := by
  intro fuel
  induction fuel with
  | zero => intro attempt url fs; exact Nat.le_add_right _ _
  | succ n ih =>
    intro attempt url fs
    rw [retryLoopAux]
    by_cases h : attempt + 1 > 1
    · rw [if_pos h]
      cases hr : refresh (attempt + 1) with
      | none => show attempt + 1 ≤ attempt + (n + 1); omega
      | some u =>
        try dsimp only
        cases hd : dl (attempt + 1) u fs with
        | ok fs' => show attempt + 1 ≤ attempt + (n + 1); omega
        | err fs' =>
          show (retryLoopAux dl refresh n (attempt + 1) u fs').attempts ≤
            attempt + (n + 1)
          have := ih (attempt + 1) u fs'
          omega
    · rw [if_neg h]
      cases hd : dl (attempt + 1) url fs with
      | ok fs' => show attempt + 1 ≤ attempt + (n + 1); omega
      | err fs' =>
        show (retryLoopAux dl refresh n (attempt + 1) url fs').attempts ≤
          attempt + (n + 1)
        have := ih (attempt + 1) url fs'
        omega

/-- C2: the per-episode attempt loop makes at most 3 attempts; the
fail-fail-succeed transport terminates in Downloaded on attempt 3 with
the downloaded file in place; after a failed first attempt the link is
re-resolved and a `None` re-resolution terminates the loop in Failed
with no further attempt; the always-failing transport terminates in
Failed after 3 attempts with no residual temp file on disk. -/
theorem C2_retry_state_machine :
    (∀ (dl : Nat → String → FsT → DlResult) (refresh : Nat → Option String)
      (url : String) (fs : FsT),
      (process_page_retry dl refresh url fs).attempts ≤ 3) ∧
    process_page_retry c2dlFF c2refresh "initial" [] =
      ⟨.Downloaded, 3, [("out.mp4", [7, 7])]⟩ ∧
    (∀ (dl : Nat → String → FsT → DlResult) (refresh : Nat → Option String)
      (url : String) (fs fs' : FsT), dl 1 url fs = .err fs' →
      refresh 2 = none →
      process_page_retry dl refresh url fs = ⟨.Failed, 2, fs'⟩) ∧
    process_page_retry c2dlFail c2refresh "initial" [] = ⟨.Failed, 3, []⟩ ∧
    fsGet (process_page_retry c2dlFail c2refresh "initial" []).fs
      ("out.mp4" ++ ".tmp") = none := by
  refine ⟨?_, by decide, ?_, by decide, by decide⟩
  · intro dl refresh url fs
    exact retryLoopAux_attempts_le dl refresh 3 0 url fs
  · intro dl refresh url fs fs' h1 h2
    have h1' : dl (0 + 1) url fs = .err fs' := h1
    have h2' : refresh (1 + 1) = none := h2
    show retryLoopAux dl refresh (2 + 1) 0 url fs = ⟨.Failed, 2, fs'⟩
    rw [retryLoopAux, if_neg (by omega), h1']
    show retryLoopAux dl refresh (1 + 1) (0 + 1) url fs' = ⟨.Failed, 2, fs'⟩
    rw [retryLoopAux, if_pos (by omega)]
    rw [show (0:Nat) + 1 + 1 = 1 + 1 from rfl, h2']

/-- C2 witness: the refresh-fails branch applied at a concrete failing
first attempt with a refresh oracle that yields no URL. -/
theorem C2_witness :
    c2dlFail 1 "u" [] = DlResult.err [] ∧ noRefresh 2 = none ∧
    process_page_retry c2dlFail noRefresh "u" [] = ⟨.Failed, 2, []⟩ :=
  ⟨by decide, rfl,
    C2_retry_state_machine.2.2.1 c2dlFail noRefresh "u" [] [] (by decide) rfl⟩

/-! ### Brute-force episode enumeration -/

theorem probeSeasonAux_log_bounds (probe : String → Option (Nat × String))
    (slug : String) (season : Nat) :
    ∀ (fuel ep misses : Nat) (e : Nat),
      e ∈ (probeSeasonAux probe slug season fuel ep misses).1 →
      ep ≤ e ∧ e < ep + fuel := by
  intro fuel
  induction fuel with
  | zero => intro ep misses e he; simp [probeSeasonAux] at he
  | succ n ih =>
    intro ep misses e he
    cases hp : probe (test_slug slug season ep) with
    | some hit =>
      simp only [probeSeasonAux, hp] at he
      rcases List.mem_cons.mp he with rfl | he'
      · omega
      · have := ih (ep + 1) 0 e he'
        omega
    | none =>
      simp only [probeSeasonAux, hp] at he
      split at he
      · simp at he; omega
      · rcases List.mem_cons.mp he with rfl | he'
        · omega
        · have := ih (ep + 1) (misses + 1) e he'
          omega

/-- C3: the brute-force enumeration probes only seasons 1..5 and episode
numbers 1..99; on the synthetic season holding exactly episodes 1..12
with every later probe missing, enumeration yields exactly 12 entries,
probes season 1 at exactly episodes 1..15 (stopping after the 3
consecutive misses at 13, 14, 15) and probes nothing beyond episode 15;
and a season whose probes all miss is probed exactly at episodes
1, 2, 3. -/
theorem C3_bruteforce_enumeration :
    (∀ (unquote : String → String) (searchApi : String → List (Nat × String))
      (probe : String → Option (Nat × String)) (slug : String),
      ∀ p ∈ (search_episodes unquote searchApi probe slug).2,
        1 ≤ p.1 ∧ p.1 ≤ 5 ∧ 1 ≤ p.2 ∧ p.2 ≤ 99) ∧
    (search_episodes id c3noSearch c3probe "show").1.length = 12 ∧
    ((search_episodes id c3noSearch c3probe "show").2.filter
      (fun p => p.1 == 1)).map Prod.snd = List.range' 1 15 ∧
    (∀ p ∈ (search_episodes id c3noSearch c3probe "show").2, p.2 ≤ 15) ∧
    (∀ (probe : String → Option (Nat × String)) (slug : String) (season : Nat),
      (∀ s, probe s = none) →
      (probeSeasonAux probe slug season 99 1 0).1 = [1, 2, 3]) := by
  refine ⟨?_, by decide, by decide, by decide, ?_⟩
  · intro unquote searchApi probe slug p hp
    simp only [search_episodes, List.mem_flatMap] at hp
    rcases hp with ⟨season, hseason, hmem⟩
    rcases List.mem_map.mp hmem with ⟨e, he, rfl⟩
    have hb := probeSeasonAux_log_bounds probe slug season 99 1 0 e he
    have hs : season = 1 ∨ season = 2 ∨ season = 3 ∨ season = 4 ∨
        season = 5 := by
      simpa using hseason
    constructor
    · rcases hs with rfl | rfl | rfl | rfl | rfl <;> omega
    constructor
    · rcases hs with rfl | rfl | rfl | rfl | rfl <;> omega
    · omega
  · intro probe slug season hmiss
    show (probeSeasonAux probe slug season (98 + 1) 1 0).1 = [1, 2, 3]
    rw [probeSeasonAux, hmiss, if_neg (by omega)]
    show (1 : Nat) ::
      (probeSeasonAux probe slug season (97 + 1) (1 + 1) (0 + 1)).1 = [1, 2, 3]
    rw [probeSeasonAux, hmiss, if_neg (by omega)]
    show (1 : Nat) :: (1 + 1) ::
      (probeSeasonAux probe slug season (96 + 1) (1 + 1 + 1) (0 + 1 + 1)).1 =
        [1, 2, 3]
    rw [probeSeasonAux, hmiss, if_pos (by omega)]

/-- C3 witness: the probe-range bound applied at one concrete logged
probe, and the all-miss early exit applied to the always-missing
oracle. -/
theorem C3_witness :
    (1 ≤ ((1, 1) : Nat × Nat).1 ∧ ((1, 1) : Nat × Nat).1 ≤ 5 ∧
      1 ≤ ((1, 1) : Nat × Nat).2 ∧ ((1, 1) : Nat × Nat).2 ≤ 99) ∧
    (probeSeasonAux noProbe "s" 1 99 1 0).1 = [1, 2, 3] :=
  ⟨C3_bruteforce_enumeration.1 id c3noSearch c3probe "show" (1, 1) (by decide),
   C3_bruteforce_enumeration.2.2.2.2 noProbe "s" 1 (fun _ => rfl)⟩

/-! ### Legacy AJAX slot decoding -/

theorem decodeSlot_direct_not_hyper (r : Except Unit String) (u : String)
    (h : decodeSlot r = .direct u) :
    strContains u "hyperwatching.com/iframe/" = false := by
  unfold decodeSlot at h
  cases r with
  | error e => cases h
  | ok b =>
    try dsimp only at h
    by_cases hb : b = ""
    · rw [if_pos hb] at h; cases h
    · rw [if_neg hb] at h
      cases hd : b64decodeUtf8 b with
      | none => rw [hd] at h; cases h
      | some decoded =>
        rw [hd] at h
        try dsimp only at h
        by_cases hm : strContains (pyAfterUrlMarker decoded)
            "hyperwatching.com/iframe/" = true
        · rw [if_pos hm] at h; cases h
        · rw [if_neg hm] at h
          injection h with he
          rw [← he]
          simpa using hm

theorem get_video_urls_wrapper_eq (ajax : Nat → Nat → Except Unit String)
    (resolver : String → List (String × String)) (ep_id : Nat) (hw : String)
    (hl : lastWrapper ((List.range' 1 5).map fun n => decodeSlot (ajax ep_id n)) =
      some hw)
    (hall : (((List.range' 1 5).map fun n => decodeSlot (ajax ep_id n)).map
      slotValue).all (fun s => s.isNone) = true) :
    get_video_urls ajax resolver ep_id = (hyperRemap (resolver hw), true) := by
  unfold get_video_urls
  try dsimp only
  rw [hl]
  try dsimp only
  rw [if_pos hall]

theorem get_video_urls_false_eq (ajax : Nat → Nat → Except Unit String)
    (resolver : String → List (String × String)) (ep_id : Nat)
    (h : (get_video_urls ajax resolver ep_id).2 = false) :
    (get_video_urls ajax resolver ep_id).1 =
      ((List.range' 1 5).map (fun n => decodeSlot (ajax ep_id n))).map
        slotValue := by
  cases hl : lastWrapper ((List.range' 1 5).map fun n => decodeSlot (ajax ep_id n)) with
  | none =>
    unfold get_video_urls
    try dsimp only
    rw [hl]
  | some hw =>
    by_cases hall : (((List.range' 1 5).map fun n => decodeSlot (ajax ep_id n)).map
        slotValue).all (fun s => s.isNone) = true
    · exfalso
      rw [get_video_urls_wrapper_eq ajax resolver ep_id hw hl hall] at h
      cases h
    · unfold get_video_urls
      try dsimp only
      rw [hl]
      try dsimp only
      rw [if_neg hall]

/-- C4 counterexample: with slot 1 decoding to a direct URL and slot 2
decoding to a hyperwatching iframe URL, the result carries
`is_hyperwatching = false`, records slot 2 as absent, and is identical
under two different wrapper resolvers — so the wrapper URL's resolution
is never deferred to the wrapper unwrapper, contradicting the claim's
"whenever". -/
theorem C4_counterexample :
    get_video_urls c4ajax c4resolverA 7 =
      ([some "https://direct.example/v", none, none, none, none], false) ∧
    get_video_urls c4ajax emptyResolver 7 = get_video_urls c4ajax c4resolverA 7 ∧
    decodeSlot (c4ajax 7 2) =
      SlotOutcome.wrapper "https://hyperwatching.com/iframe/abc123" :=
  ⟨by decide, by decide, by decide⟩

/-- C4 (amended): per slot the base64 `embed_url` is decoded and the
`url=` marker is stripped (taking the part after the last marker); a
decoded value pointing at the wrapper domain is never recorded as the
slot's final URL in a standard result; deferral to the wrapper unwrapper
happens exactly when a wrapper URL was seen and all five slots ended
absent, in which case the resolver's output is remapped onto the wrapped
name order. -/
theorem C4_slot_decode_and_deferral (ajax : Nat → Nat → Except Unit String)
    (resolver : String → List (String × String)) (ep_id : Nat) :
    ((get_video_urls ajax resolver ep_id).2 = false →
      (get_video_urls ajax resolver ep_id).1 =
        ((List.range' 1 5).map (fun n => decodeSlot (ajax ep_id n))).map
          slotValue) ∧
    (∀ hw, lastWrapper ((List.range' 1 5).map
        fun n => decodeSlot (ajax ep_id n)) = some hw →
      (((List.range' 1 5).map fun n => decodeSlot (ajax ep_id n)).map
        slotValue).all (fun s => s.isNone) = true →
      get_video_urls ajax resolver ep_id = (hyperRemap (resolver hw), true)) ∧
    (∀ u, some u ∈ (get_video_urls ajax resolver ep_id).1 →
      (get_video_urls ajax resolver ep_id).2 = false →
      strContains u "hyperwatching.com/iframe/" = false) ∧
    (∀ b64 d, b64decodeUtf8 b64 = some d → b64 ≠ "" →
      decodeSlot (.ok b64) =
        (if strContains (pyAfterUrlMarker d) "hyperwatching.com/iframe/"
         then SlotOutcome.wrapper (pyAfterUrlMarker d)
         else SlotOutcome.direct (pyAfterUrlMarker d))) ∧
    pyAfterUrlMarker "https://strema.top/e?url=https://real.example/v.mp4" =
      "https://real.example/v.mp4" := by
  refine ⟨get_video_urls_false_eq ajax resolver ep_id, ?_, ?_, ?_, by decide⟩
  · intro hw hl hall
    exact get_video_urls_wrapper_eq ajax resolver ep_id hw hl hall
  · intro u hu hfalse
    rw [get_video_urls_false_eq ajax resolver ep_id hfalse] at hu
    rcases List.mem_map.mp hu with ⟨o, ho, hov⟩
    have hdir : o = SlotOutcome.direct u := by
      cases o with
      | absent => cases hov
      | direct v => cases hov; rfl
      | wrapper v => cases hov
    rcases List.mem_map.mp ho with ⟨n, _, hn⟩
    exact decodeSlot_direct_not_hyper (ajax ep_id n) u (by rw [hn, hdir])
  · intro b64 d hd hne
    unfold decodeSlot
    try dsimp only
    rw [if_neg hne, hd]

/-- C4 witness: the deferral branch applied to the oracle whose only
answering slot is the hyperwatching URL. -/
theorem C4_witness :
    get_video_urls c4ajaxB c4resolverA 7 =
      (hyperRemap (c4resolverA "https://hyperwatching.com/iframe/abc123"),
        true) :=
  (C4_slot_decode_and_deferral c4ajaxB c4resolverA 7).2.1
    "https://hyperwatching.com/iframe/abc123" (by decide) (by decide)

/-! ### The obfuscation decoder -/

theorem m3u8FromScript_none_of_no_marker (s : String)
    (h : strContains s "stream.foupix.com" = false) :
    m3u8FromScript s = none := by
  unfold m3u8FromScript
  rw [if_neg (by simp [h])]

theorem m3u8FromScript_some_inv (s u : String)
    (h : m3u8FromScript s = some u) :
    strContains s "stream.foupix.com" = true ∧
    ∃ obj pr dom pa qu, searchObjLit s.toList = some obj ∧
      searchField "jC1kO:".toList obj = some pr ∧
      searchField "hF3nV:".toList obj = some dom ∧
      searchField "iA5pX:".toList obj = some pa ∧
      searchField "tN4qY:".toList obj = some qu ∧
      u = String.mk pr ++ "://" ++ String.mk dom ++ "/" ++ String.mk pa ++
        "?" ++ String.mk qu := by
  unfold m3u8FromScript at h
  by_cases hm : strContains s "stream.foupix.com" = true
  case neg => rw [if_neg hm] at h; cases h
  case pos =>
  rw [if_pos hm] at h
  refine ⟨hm, ?_⟩
  cases ho : searchObjLit s.toList with
  | none => rw [ho] at h; cases h
  | some obj =>
    rw [ho] at h
    try dsimp only at h
    cases hA : searchField "jC1kO:".toList obj with
    | none => rw [hA] at h; cases h
    | some pr =>
      rw [hA] at h
      try dsimp only at h
      cases hB : searchField "hF3nV:".toList obj with
      | none => rw [hB] at h; cases h
      | some dom =>
        rw [hB] at h
        try dsimp only at h
        cases hC : searchField "iA5pX:".toList obj with
        | none => rw [hC] at h; cases h
        | some pa =>
          rw [hC] at h
          try dsimp only at h
          cases hD : searchField "tN4qY:".toList obj with
          | none => rw [hD] at h; cases h
          | some qu =>
            rw [hD] at h
            try dsimp only at h
            injection h with he
            exact ⟨obj, pr, dom, pa, qu, rfl, hA, hB, hC, hD, he.symm⟩

theorem m3u8Scan_none (scripts : List (Option String))
    (h : ∀ s, some s ∈ scripts → strContains s "stream.foupix.com" = false) :
    m3u8Scan scripts = none := by
  induction scripts with
  | nil => rfl
  | cons hd tl ih =>
    cases hd with
    | none =>
      simp only [m3u8Scan]
      exact ih (fun s hs => h s (List.mem_cons_of_mem _ hs))
    | some s =>
      have hf := m3u8FromScript_none_of_no_marker s (h s (List.mem_cons_self _ _))
      simp only [m3u8Scan, hf]
      exact ih (fun s' hs => h s' (List.mem_cons_of_mem _ hs))

theorem m3u8Scan_some_inv (scripts : List (Option String)) (u : String)
    (h : m3u8Scan scripts = some u) :
    ∃ s, some s ∈ scripts ∧ m3u8FromScript s = some u := by
  induction scripts with
  | nil => cases h
  | cons hd tl ih =>
    cases hd with
    | none =>
      simp only [m3u8Scan] at h
      rcases ih h with ⟨s, hs, hf⟩
      exact ⟨s, List.mem_cons_of_mem _ hs, hf⟩
    | some s =>
      simp only [m3u8Scan] at h
      cases hf : m3u8FromScript s with
      | some u' =>
        simp only [hf] at h
        injection h with he
        exact ⟨s, List.mem_cons_self _ _, he ▸ hf⟩
      | none =>
        simp only [hf] at h
        rcases ih h with ⟨s', hs', hf'⟩
        exact ⟨s', List.mem_cons_of_mem _ hs', hf'⟩

/-- C5: when no script carries the `stream.foupix.com` marker the
decoder returns `None`; every returned URL is the
protocol://domain/path?query concatenation of the four fields extracted
from a marker-bearing script's object literal; a page with the marker,
the literal and all four fields yields the reconstructed URL; a page
whose literal lacks one field yields `None` (absence, not an
exception — the embedding is total); a `None` soup yields `None`. -/
theorem C5_m3u8_decoder_contract :
    (∀ scripts : List (Option String),
      (∀ s, some s ∈ scripts → strContains s "stream.foupix.com" = false) →
      get_m3u8_link_from_js (some scripts) = none) ∧
    (∀ (scripts : List (Option String)) (u : String),
      get_m3u8_link_from_js (some scripts) = some u →
      ∃ s, some s ∈ scripts ∧ strContains s "stream.foupix.com" = true ∧
        ∃ obj pr dom pa qu, searchObjLit s.toList = some obj ∧
          searchField "jC1kO:".toList obj = some pr ∧
          searchField "hF3nV:".toList obj = some dom ∧
          searchField "iA5pX:".toList obj = some pa ∧
          searchField "tN4qY:".toList obj = some qu ∧
          u = String.mk pr ++ "://" ++ String.mk dom ++ "/" ++ String.mk pa ++
            "?" ++ String.mk qu) ∧
    get_m3u8_link_from_js
        (some [none, some "no marker here", some c5goodScript]) =
      some "https://stream.foupix.com/hls/video.m3u8?token=abc" ∧
    get_m3u8_link_from_js (some [some c5badScript]) = none ∧
    strContains c5badScript "stream.foupix.com" = true ∧
    get_m3u8_link_from_js none = none := by
  refine ⟨?_, ?_, by decide, by decide, by decide, rfl⟩
  · intro scripts h
    exact m3u8Scan_none scripts h
  · intro scripts u h
    rcases m3u8Scan_some_inv scripts u h with ⟨s, hs, hf⟩
    rcases m3u8FromScript_some_inv s u hf with ⟨hm, obj, pr, dom, pa, qu, hrest⟩
    exact ⟨s, hs, hm, obj, pr, dom, pa, qu, hrest⟩

/-- C5 witness: the no-marker branch applied to a concrete marker-free
page. -/
theorem C5_witness :
    get_m3u8_link_from_js (some [some "nothing to see"]) = none :=
  C5_m3u8_decoder_contract.1 [some "nothing to see"] (by
    intro s hs
    have h := List.mem_singleton.mp hs
    injection h with h2
    subst h2
    decide)

/-! ### The wrapper unwrapper -/

theorem dictUpsert_mem {κ : Type} [BEq κ] (d : List (κ × String)) (k : κ)
    (v : String) (e : κ × String) (h : e ∈ dictUpsert d k v) :
    e ∈ d ∨ e = (k, v) := by
  unfold dictUpsert at h
  split at h
  · rcases List.mem_map.mp h with ⟨x, hx, hxe⟩
    by_cases hk : (x.1 == k) = true
    · rw [if_pos hk] at hxe
      right; exact hxe.symm
    · rw [if_neg hk] at hxe
      left; exact hxe ▸ hx
  · rcases List.mem_append.mp h with h1 | h1
    · left; exact h1
    · right; simpa using h1

theorem collectStep_mem (linkApi : String → String → String → Except Unit LinkData)
    (a c : String) (results : List (String × String)) (p : String × String)
    (e : String × String) (h : e ∈ collectStep linkApi a c results p) :
    e ∈ results ∨
      (e.1 = pyLower p.2 ∧ ∃ ld, linkApi a c p.1 = .ok ld ∧
        ld.success = true ∧ ld.watch_url = e.2 ∧ e.2 ≠ "") := by
  unfold collectStep at h
  cases hl : linkApi a c p.1 with
  | error err => rw [hl] at h; left; exact h
  | ok ld =>
    rw [hl] at h
    try dsimp only at h
    by_cases hc : ld.success = true ∧ ld.watch_url ≠ ""
    · rw [if_pos hc] at h
      rcases dictUpsert_mem _ _ _ _ h with h1 | h1
      · left; exact h1
      · right
        refine ⟨by rw [h1], ld, rfl, hc.1, by rw [h1], ?_⟩
        rw [h1]
        exact hc.2
    · rw [if_neg hc] at h
      left; exact h

theorem collectServers_fold_mem
    (linkApi : String → String → String → Except Unit LinkData) (a c : String) :
    ∀ (pairs : List (String × String)) (acc : List (String × String))
      (e : String × String),
      e ∈ pairs.foldl (collectStep linkApi a c) acc →
      e ∈ acc ∨ ∃ sid sname, (sid, sname) ∈ pairs ∧ e.1 = pyLower sname ∧
        ∃ ld, linkApi a c sid = .ok ld ∧ ld.success = true ∧
          ld.watch_url = e.2 ∧ e.2 ≠ "" := by
  intro pairs
  induction pairs with
  | nil => intro acc e h; left; exact h
  | cons p tl ih =>
    intro acc e h
    rw [List.foldl_cons] at h
    rcases ih _ e h with h1 | ⟨sid, sname, hmem, rest⟩
    · rcases collectStep_mem linkApi a c acc p e h1 with h2 | ⟨hn, hld⟩
      · left; exact h2
      · right; exact ⟨p.1, p.2, List.mem_cons_self _ _, hn, hld⟩
    · right; exact ⟨sid, sname, List.mem_cons_of_mem _ hmem, rest⟩

theorem collectServers_mem
    (linkApi : String → String → String → Except Unit LinkData) (a c : String)
    (pairs : List (String × String)) (e : String × String)
    (h : e ∈ collectServers linkApi a c pairs) :
    ∃ sid sname, (sid, sname) ∈ pairs ∧ e.1 = pyLower sname ∧
      ∃ ld, linkApi a c sid = .ok ld ∧ ld.success = true ∧
        ld.watch_url = e.2 ∧ e.2 ≠ "" :=
  (collectServers_fold_mem linkApi a c pairs [] e h).resolve_left (by simp)

theorem resolve_hyper_of_error (pageFetch : String → Except Unit String)
    (linkApi : String → String → String → Except Unit LinkData)
    (iframe_url : String) (e : Unit) (hpf : pageFetch iframe_url = .error e) :
    resolve_hyperwatching pageFetch linkApi iframe_url =
      [("hyperwatching", iframe_url)] := by
  unfold resolve_hyperwatching
  rw [hpf]

theorem resolve_hyper_of_noblock (pageFetch : String → Except Unit String)
    (linkApi : String → String → String → Except Unit LinkData)
    (iframe_url html : String) (hpf : pageFetch iframe_url = .ok html)
    (hb : searchServersBlock html.toList = none) :
    resolve_hyperwatching pageFetch linkApi iframe_url =
      [("hyperwatching", iframe_url)] := by
  unfold resolve_hyperwatching
  rw [hpf]
  try dsimp only
  rw [hb]

theorem resolve_hyper_of_block (pageFetch : String → Except Unit String)
    (linkApi : String → String → String → Except Unit LinkData)
    (iframe_url html : String) (st : List Char)
    (hpf : pageFetch iframe_url = .ok html)
    (hb : searchServersBlock html.toList = some st) :
    resolve_hyperwatching pageFetch linkApi iframe_url =
      (if (collectServers linkApi (hyper_api_url iframe_url) (csrf_of html)
            ((findAllIds st).zip (findAllNames st))).isEmpty
       then [("hyperwatching", iframe_url)]
       else collectServers linkApi (hyper_api_url iframe_url) (csrf_of html)
          ((findAllIds st).zip (findAllNames st))) := by
  unfold resolve_hyperwatching
  rw [hpf]
  try dsimp only
  rw [hb]

/-- C6: the wrapper unwrapper's result is never empty; a failed page
fetch, a missing server list, and an empty collection each yield exactly
the singleton fallback `{"hyperwatching": iframe_url}`; when at least one
server resolved, the result is exactly the collected mapping; and every
collected entry originates from a scraped (server-id, server-name) pair
whose resolution request succeeded with `success` set and a nonempty
URL — failed or empty servers are simply absent.  Concretely, the
two-server page whose second server reports failure yields only the
first server's entry. -/
theorem C6_unwrapper_fallback_and_partial_results
    (pageFetch : String → Except Unit String)
    (linkApi : String → String → String → Except Unit LinkData)
    (iframe_url : String) :
    resolve_hyperwatching pageFetch linkApi iframe_url ≠ [] ∧
    (∀ e, pageFetch iframe_url = .error e →
      resolve_hyperwatching pageFetch linkApi iframe_url =
        [("hyperwatching", iframe_url)]) ∧
    (∀ html, pageFetch iframe_url = .ok html →
      searchServersBlock html.toList = none →
      resolve_hyperwatching pageFetch linkApi iframe_url =
        [("hyperwatching", iframe_url)]) ∧
    (∀ html st, pageFetch iframe_url = .ok html →
      searchServersBlock html.toList = some st →
      (collectServers linkApi (hyper_api_url iframe_url) (csrf_of html)
          ((findAllIds st).zip (findAllNames st)) = [] →
        resolve_hyperwatching pageFetch linkApi iframe_url =
          [("hyperwatching", iframe_url)]) ∧
      (collectServers linkApi (hyper_api_url iframe_url) (csrf_of html)
          ((findAllIds st).zip (findAllNames st)) ≠ [] →
        resolve_hyperwatching pageFetch linkApi iframe_url =
          collectServers linkApi (hyper_api_url iframe_url) (csrf_of html)
            ((findAllIds st).zip (findAllNames st)))) ∧
    (∀ (a c : String) (pairs : List (String × String)) (e : String × String),
      e ∈ collectServers linkApi a c pairs →
      ∃ sid sname, (sid, sname) ∈ pairs ∧ e.1 = pyLower sname ∧
        ∃ ld, linkApi a c sid = .ok ld ∧ ld.success = true ∧
          ld.watch_url = e.2 ∧ e.2 ≠ "") ∧
    resolve_hyperwatching c6pageOk c6apiPartial
        "https://hyperwatching.com/iframe/abc" =
      [("uqload", "https://uq.example/v")] := by
  refine ⟨?_, ?_, ?_, ?_, ?_, by decide⟩
  · cases hpf : pageFetch iframe_url with
    | error e =>
      rw [resolve_hyper_of_error pageFetch linkApi iframe_url e hpf]
      simp
    | ok html =>
      cases hb : searchServersBlock html.toList with
      | none =>
        rw [resolve_hyper_of_noblock pageFetch linkApi iframe_url html hpf hb]
        simp
      | some st =>
        rw [resolve_hyper_of_block pageFetch linkApi iframe_url html st hpf hb]
        cases hemp : (collectServers linkApi (hyper_api_url iframe_url)
            (csrf_of html) ((findAllIds st).zip (findAllNames st))).isEmpty with
        | true => rw [if_pos rfl]; simp
        | false =>
          rw [if_neg Bool.false_ne_true]
          intro hc
          rw [hc] at hemp
          simp at hemp
  · intro e hpf
    exact resolve_hyper_of_error pageFetch linkApi iframe_url e hpf
  · intro html hpf hb
    exact resolve_hyper_of_noblock pageFetch linkApi iframe_url html hpf hb
  · intro html st hpf hb
    constructor
    · intro hemp
      rw [resolve_hyper_of_block pageFetch linkApi iframe_url html st hpf hb]
      rw [if_pos (by rw [hemp]; rfl)]
    · intro hne
      rw [resolve_hyper_of_block pageFetch linkApi iframe_url html st hpf hb]
      rw [if_neg (by simpa [List.isEmpty_iff] using hne)]
  · intro a c pairs e h
    exact collectServers_mem linkApi a c pairs e h

/-- C6 witness: the fallback branch applied to the always-raising page
fetch. -/
theorem C6_witness :
    resolve_hyperwatching c6errFetch c6noApi "https://hyperwatching.com/iframe/x" =
      [("hyperwatching", "https://hyperwatching.com/iframe/x")] :=
  (C6_unwrapper_fallback_and_partial_results c6errFetch c6noApi
      "https://hyperwatching.com/iframe/x").2.1 () rfl

/-! ### The stable key-sort -/

theorem insKey_perm {α : Type} (k : α → Nat) (x : α) (l : List α) :
    (insKey k x l).Perm (x :: l) := by
  induction l with
  | nil => exact List.Perm.refl _
  | cons y ys ih =>
    unfold insKey
    by_cases h : k y < k x
    · rw [if_pos h]
      exact (ih.cons y).trans (List.Perm.swap x y ys)
    · rw [if_neg h]

theorem pySortByKey_perm {α : Type} (k : α → Nat) (l : List α) :
    (pySortByKey k l).Perm l := by
  induction l with
  | nil => exact List.Perm.refl _
  | cons x xs ih =>
    unfold pySortByKey
    exact (insKey_perm k x _).trans (ih.cons x)

theorem insKey_pairwise {α : Type} (k : α → Nat) (x : α) (l : List α)
    (h : l.Pairwise (fun a b => k a ≤ k b)) :
    (insKey k x l).Pairwise (fun a b => k a ≤ k b) := by
  induction l with
  | nil => simp [insKey]
  | cons y ys ih =>
    rcases List.pairwise_cons.mp h with ⟨hy, hys⟩
    unfold insKey
    by_cases hk : k y < k x
    · rw [if_pos hk]
      refine List.pairwise_cons.mpr ⟨?_, ih hys⟩
      intro a ha
      rcases List.mem_cons.mp ((insKey_perm k x ys).mem_iff.mp ha) with rfl | ha'
      · omega
      · exact hy a ha'
    · rw [if_neg hk]
      refine List.pairwise_cons.mpr ⟨?_, h⟩
      intro a ha
      rcases List.mem_cons.mp ha with rfl | ha'
      · omega
      · have := hy a ha'
        omega

theorem pySortByKey_pairwise {α : Type} (k : α → Nat) (l : List α) :
    (pySortByKey k l).Pairwise (fun a b => k a ≤ k b) := by
  induction l with
  | nil => exact List.Pairwise.nil
  | cons x xs ih =>
    unfold pySortByKey
    exact insKey_pairwise k x _ ih

theorem insKey_filter_eq {α : Type} (k : α → Nat) (x : α) (l : List α)
    (v : Nat) (hx : k x = v) :
    (insKey k x l).filter (fun z => k z == v) =
      x :: l.filter (fun z => k z == v) := by
  induction l with
  | nil => simp [insKey, hx]
  | cons y ys ih =>
    unfold insKey
    by_cases hk : k y < k x
    · have hy : (k y == v) = false := by
        simp only [beq_eq_false_iff_ne]
        omega
      rw [if_pos hk, List.filter_cons_of_neg (by rw [hy]; exact
        Bool.false_ne_true), ih, List.filter_cons_of_neg (by rw [hy]; exact
        Bool.false_ne_true)]
    · rw [if_neg hk, List.filter_cons_of_pos (by simp [hx])]

theorem insKey_filter_ne {α : Type} (k : α → Nat) (x : α) (l : List α)
    (v : Nat) (hx : k x ≠ v) :
    (insKey k x l).filter (fun z => k z == v) =
      l.filter (fun z => k z == v) := by
  induction l with
  | nil => simp [insKey, hx]
  | cons y ys ih =>
    unfold insKey
    by_cases hk : k y < k x
    · rw [if_pos hk, List.filter_cons, List.filter_cons, ih]
    · rw [if_neg hk, List.filter_cons_of_neg (by simp [hx])]

theorem pySortByKey_filter {α : Type} (k : α → Nat) (l : List α) (v : Nat) :
    (pySortByKey k l).filter (fun z => k z == v) =
      l.filter (fun z => k z == v) := by
  induction l with
  | nil => rfl
  | cons x xs ih =>
    unfold pySortByKey
    by_cases hx : k x = v
    · rw [insKey_filter_eq k x _ v hx, ih,
        List.filter_cons_of_pos (by simp [hx])]
    · rw [insKey_filter_ne k x _ v hx, ih,
        List.filter_cons_of_neg (by simp [hx])]

theorem pairwise_of_forall_rel {α : Type} {R : α → α → Prop}
    (hR : ∀ a b, R a b) : ∀ l : List α, l.Pairwise R := by
  intro l
  induction l with
  | nil => exact List.Pairwise.nil
  | cons x xs ih => exact List.Pairwise.cons (fun a _ => hR x a) ih

/-! ### The selection grammar -/

theorem mem_setInsert (l : List Nat) (y x : Nat) (h : x ∈ setInsert l y) :
    x ∈ l ∨ x = y := by
  unfold setInsert at h
  split at h
  · left; exact h
  · rcases List.mem_append.mp h with h1 | h1
    · left; exact h1
    · right; simpa using h1

theorem setInsert_nodup (l : List Nat) (y : Nat) (h : l.Nodup) :
    (setInsert l y).Nodup := by
  unfold setInsert
  split
  · exact h
  · next hy =>
    rw [List.nodup_append]
    exact ⟨h, List.nodup_singleton y,
      fun a ha hz => hy (List.mem_singleton.mp hz ▸ ha)⟩

theorem rangeFoldInsert_mem (s e : Int) :
    ∀ (l : List Nat) (a : List Nat) (x : Nat),
      x ∈ l.foldl (fun a (n : Nat) =>
        if s ≤ (n : Int) ∧ (n : Int) ≤ e then setInsert a n else a) a →
      x ∈ a ∨ x ∈ l := by
  intro l
  induction l with
  | nil => intro a x h; left; exact h
  | cons n tl ih =>
    intro a x h
    rw [List.foldl_cons] at h
    rcases ih _ x h with h1 | h1
    · by_cases hc : s ≤ (n : Int) ∧ (n : Int) ≤ e
      · rw [if_pos hc] at h1
        rcases mem_setInsert _ _ _ h1 with h2 | rfl
        · left; exact h2
        · right; exact List.mem_cons_self _ _
      · rw [if_neg hc] at h1
        left; exact h1
    · right; exact List.mem_cons_of_mem _ h1

theorem rangeFoldInsert_nodup (s e : Int) :
    ∀ (l : List Nat) (a : List Nat), a.Nodup →
      (l.foldl (fun a (n : Nat) =>
        if s ≤ (n : Int) ∧ (n : Int) ≤ e then setInsert a n else a) a).Nodup := by
  intro l
  induction l with
  | nil => intro a h; exact h
  | cons n tl ih =>
    intro a h
    rw [List.foldl_cons]
    apply ih
    by_cases hc : s ≤ (n : Int) ∧ (n : Int) ≤ e
    · rw [if_pos hc]; exact setInsert_nodup a n h
    · rw [if_neg hc]; exact h

theorem pyRangeAdd_mem (s e : Int) (total : Nat) (acc : List Nat) (x : Nat)
    (h : x ∈ pyRangeAdd s e total acc) : x ∈ acc ∨ (1 ≤ x ∧ x ≤ total) := by
  rcases rangeFoldInsert_mem s e (List.range' 1 total) acc x h with h1 | h1
  · left; exact h1
  · right
    rcases List.mem_range'.mp h1 with ⟨i, hi, rfl⟩
    omega

theorem pyRangeAdd_nodup (s e : Int) (total : Nat) (acc : List Nat)
    (h : acc.Nodup) : (pyRangeAdd s e total acc).Nodup :=
  rangeFoldInsert_nodup s e (List.range' 1 total) acc h

theorem selPart_mem (total : Nat) (st : List Nat × List String)
    (part : String) (x : Nat) (h : x ∈ (selPart total st part).1) :
    x ∈ st.1 ∨ (1 ≤ x ∧ x ≤ total) := by
  unfold selPart at h
  by_cases hc : strContains part "-" = true
  · rw [if_pos hc] at h
    cases hs : pySplit part "-" with
    | nil => rw [hs] at h; left; exact h
    | cons a t1 =>
      cases t1 with
      | nil => rw [hs] at h; left; exact h
      | cons b t2 =>
        cases t2 with
        | cons cc t3 => rw [hs] at h; left; exact h
        | nil =>
          rw [hs] at h
          try dsimp only at h
          cases hA : pyInt a with
          | none =>
            rw [hA] at h
            try dsimp only at h
            left; exact h
          | some s =>
            rw [hA] at h
            try dsimp only at h
            cases hB : pyInt b with
            | none =>
              rw [hB] at h
              try dsimp only at h
              left; exact h
            | some e =>
              rw [hB] at h
              try dsimp only at h
              exact pyRangeAdd_mem s e total st.1 x h
  · rw [if_neg hc] at h
    cases hA : pyInt part with
    | none =>
      rw [hA] at h
      try dsimp only at h
      left; exact h
    | some n =>
      rw [hA] at h
      try dsimp only at h
      by_cases hr : 1 ≤ n ∧ n ≤ (total : Int)
      · rw [if_pos hr] at h
        rcases mem_setInsert _ _ _ h with h1 | rfl
        · left; exact h1
        · right; omega
      · rw [if_neg hr] at h
        left; exact h

theorem selPart_nodup (total : Nat) (st : List Nat × List String)
    (part : String) (h : st.1.Nodup) : (selPart total st part).1.Nodup := by
  unfold selPart
  by_cases hc : strContains part "-" = true
  · rw [if_pos hc]
    cases hs : pySplit part "-" with
    | nil => exact h
    | cons a t1 =>
      cases t1 with
      | nil => exact h
      | cons b t2 =>
        cases t2 with
        | cons cc t3 => exact h
        | nil =>
          try dsimp only
          cases hA : pyInt a with
          | none => exact h
          | some s =>
            try dsimp only
            cases hB : pyInt b with
            | none => exact h
            | some e => exact pyRangeAdd_nodup s e total st.1 h
  · rw [if_neg hc]
    cases hA : pyInt part with
    | none => exact h
    | some n =>
      try dsimp only
      by_cases hr : 1 ≤ n ∧ n ≤ (total : Int)
      · rw [if_pos hr]; exact setInsert_nodup st.1 n.toNat h
      · rw [if_neg hr]; exact h

theorem selFold_mem (total : Nat) :
    ∀ (parts : List String) (st : List Nat × List String) (x : Nat),
      x ∈ (parts.foldl (selPart total) st).1 →
      x ∈ st.1 ∨ (1 ≤ x ∧ x ≤ total) := by
  intro parts
  induction parts with
  | nil => intro st x h; left; exact h
  | cons p tl ih =>
    intro st x h
    rw [List.foldl_cons] at h
    rcases ih _ x h with h1 | h1
    · exact selPart_mem total st p x h1
    · right; exact h1

theorem selFold_nodup (total : Nat) :
    ∀ (parts : List String) (st : List Nat × List String),
      st.1.Nodup → (parts.foldl (selPart total) st).1.Nodup := by
  intro parts
  induction parts with
  | nil => intro st h; exact h
  | cons p tl ih =>
    intro st h
    rw [List.foldl_cons]
    exact ih _ (selPart_nodup total st p h)

theorem selPart_warns (total : Nat) (st : List Nat × List String)
    (part : String) :
    (selPart total st part).2 =
      st.2 ++ (if partWarns part then [part] else []) := by
  unfold selPart partWarns
  by_cases hc : strContains part "-" = true
  · rw [if_pos hc, if_pos hc]
    cases hs : pySplit part "-" with
    | nil => simp
    | cons a t1 =>
      cases t1 with
      | nil => simp
      | cons b t2 =>
        cases t2 with
        | cons cc t3 => simp
        | nil =>
          try dsimp only
          cases hA : pyInt a with
          | none => simp
          | some s =>
            try dsimp only
            cases hB : pyInt b with
            | none => simp
            | some e => simp
  · rw [if_neg hc, if_neg hc]
    cases hA : pyInt part with
    | none => simp
    | some n =>
      try dsimp only
      by_cases hr : 1 ≤ n ∧ n ≤ (total : Int)
      · rw [if_pos hr]; simp
      · rw [if_neg hr]; simp

theorem selFold_warns (total : Nat) :
    ∀ (parts : List String) (st : List Nat × List String),
      (parts.foldl (selPart total) st).2 = st.2 ++ parts.filter partWarns := by
  intro parts
  induction parts with
  | nil => intro st; simp
  | cons p tl ih =>
    intro st
    rw [List.foldl_cons, ih, selPart_warns]
    by_cases hw : partWarns p = true
    · rw [if_pos hw, List.filter_cons_of_pos hw]
      simp
    · rw [if_neg hw, List.filter_cons_of_neg hw]
      simp

/-- C8 counterexample: the out-of-range token "10" with 6 total episodes
is discarded silently — the selection is empty AND the warning list is
empty, although "10" is a well-formed integer that is merely out of
range; the claim's "skipped with a warning" fails for out-of-range
tokens. -/
theorem C8_counterexample :
    parse_episode_selection "10" 6 = ([], []) ∧
    pyInt "10" = some 10 ∧ ¬ ((10 : Int) ≤ ((6 : Nat) : Int)) :=
  ⟨by decide, by decide, by decide⟩

/-- C8 (amended): "all" yields [1..N]; "1, 3-5, 10" with N=6 yields
[1,3,4,5] with no warning (the out-of-range 10 is silently discarded);
"abc" yields [] with a warning; the result is always a sorted
deduplicated list of in-range numbers; and the warning list is exactly
the malformed (ValueError-raising) tokens — parsing never fails. -/
theorem C8_selection_grammar :
    (∀ total, parse_episode_selection "all" total = (List.range' 1 total, [])) ∧
    parse_episode_selection "1, 3-5, 10" 6 = ([1, 3, 4, 5], []) ∧
    parse_episode_selection "abc" 6 = ([], ["abc"]) ∧
    (∀ input total,
      (parse_episode_selection input total).1.Pairwise (· ≤ ·) ∧
      (parse_episode_selection input total).1.Nodup ∧
      ∀ x ∈ (parse_episode_selection input total).1, 1 ≤ x ∧ x ≤ total) ∧
    (∀ input total, pyLower input ≠ "all" →
      (parse_episode_selection input total).2 =
        (pySplit (pyReplace input " " "") ",").filter partWarns) := by
  refine ⟨?_, by decide, by decide, ?_, ?_⟩
  · intro total
    unfold parse_episode_selection
    rw [if_pos (by decide)]
  · intro input total
    unfold parse_episode_selection
    by_cases hall : pyLower input = "all"
    · rw [if_pos hall]
      refine ⟨(List.pairwise_lt_range' 1 total).imp (fun h => le_of_lt h),
        List.nodup_range' 1 total, ?_⟩
      intro x hx
      rcases List.mem_range'.mp hx with ⟨i, hi, rfl⟩
      omega
    · rw [if_neg hall]
      try dsimp only
      refine ⟨?_, ?_, ?_⟩
      · exact pySortByKey_pairwise (id : Nat → Nat) _
      · exact ((pySortByKey_perm id _).nodup_iff).mpr
          (selFold_nodup total _ ([], []) List.nodup_nil)
      · intro x hx
        have hx' := (pySortByKey_perm id _).mem_iff.mp hx
        rcases selFold_mem total _ ([], []) x hx' with h1 | h1
        · simp at h1
        · exact h1
  · intro input total hne
    unfold parse_episode_selection
    rw [if_neg hne]
    try dsimp only
    simpa using selFold_warns total (pySplit (pyReplace input " " "") ",")
      ([], [])

/-- C8 witness: the warning characterization applied to a concrete mixed
input — the two malformed tokens are warned, the in-range token is
not. -/
theorem C8_witness :
    (parse_episode_selection "abc,3-x,7" 9).2 = ["abc", "3-x"] := by
  rw [C8_selection_grammar.2.2.2.2 "abc,3-x,7" 9 (by decide)]
  decide

/-! ### Preferred-server ordering -/

theorem findIdx?_some_of_mem {l : List String} {a : String} :
    ∀ i : Nat, a ∈ l →
      ∃ j, l.findIdx? (fun s => s == a) i = some j ∧ j < i + l.length := by
  induction l with
  | nil => intro i h; cases h
  | cons x xs ih =>
    intro i h
    by_cases hpx : (x == a) = true
    · exact ⟨i, by rw [List.findIdx?_cons, if_pos hpx],
        by simp only [List.length_cons]; omega⟩
    · rcases List.mem_cons.mp h with rfl | h'
      · simp at hpx
      · rcases ih (i + 1) h' with ⟨j, hj, hb⟩
        refine ⟨j, by rw [List.findIdx?_cons, if_neg hpx]; exact hj, ?_⟩
        simp only [List.length_cons]
        omega

theorem findIdx?_none_of_not_mem {l : List String} {a : String} :
    ∀ i : Nat, a ∉ l → l.findIdx? (fun s => s == a) i = none := by
  induction l with
  | nil => intro i _; rfl
  | cons x xs ih =>
    intro i h
    have hpx : (x == a) = false := by
      simp only [beq_eq_false_iff_ne]
      exact fun hc => h (hc ▸ List.mem_cons_self _ _)
    rw [List.findIdx?_cons, if_neg (by rw [hpx]; exact Bool.false_ne_true)]
    exact ih (i + 1) (fun hc => h (List.mem_cons_of_mem _ hc))

theorem pref_key_le_of_mem (P : List String) (n : String)
    (hP : P.length ≤ 999) (h : pyLower n ∈ P.map pyLower) :
    pref_key P n ≤ 998 := by
  have h' : pyLower n ∈ (P.map pyLower).reverse := List.mem_reverse.mpr h
  rcases findIdx?_some_of_mem 0 h' with ⟨j, hj, hb⟩
  unfold pref_key
  rw [hj]
  show P.length - 1 - j ≤ 998
  have hb' : j < P.length := by simpa using hb
  omega

theorem pref_key_eq_999_of_not_mem (P : List String) (n : String)
    (h : pyLower n ∉ P.map pyLower) : pref_key P n = 999 := by
  unfold pref_key
  rw [findIdx?_none_of_not_mem 0 (fun hc => h (List.mem_reverse.mp hc))]

theorem tryServers_spec (dlOk : String → Bool) (unquote : String → String)
    (l : List (String × String)) :
    ((tryServers dlOk unquote l).1 = false →
      (tryServers dlOk unquote l).2 = l ∧
      ∀ e ∈ l, dlOk (unwrap_video_url unquote e.2) = false) ∧
    ((tryServers dlOk unquote l).1 = true →
      ∃ pre e post, l = pre ++ e :: post ∧
        (tryServers dlOk unquote l).2 = pre ++ [e] ∧
        (∀ x ∈ pre, dlOk (unwrap_video_url unquote x.2) = false) ∧
        dlOk (unwrap_video_url unquote e.2) = true) := by
  induction l with
  | nil =>
    constructor
    · intro _; exact ⟨rfl, by simp⟩
    · intro h; simp [tryServers] at h
  | cons e rest ih =>
    unfold tryServers
    by_cases hd : dlOk (unwrap_video_url unquote e.2) = true
    · rw [if_pos hd]
      constructor
      · intro h; cases h
      · intro _
        exact ⟨[], e, rest, rfl, rfl, by simp, hd⟩
    · rw [if_neg hd]
      try dsimp only
      constructor
      · intro h
        rcases ih.1 h with ⟨h2, h3⟩
        constructor
        · show e :: (tryServers dlOk unquote rest).2 = e :: rest
          rw [h2]
        · intro x hx
          rcases List.mem_cons.mp hx with rfl | hx'
          · simpa using hd
          · exact h3 x hx'
      · intro h
        rcases ih.2 h with ⟨pre, y, post, hsplit, htried, hpre, hy⟩
        refine ⟨e :: pre, y, post, by rw [List.cons_append, ← hsplit], ?_, ?_, hy⟩
        · show e :: (tryServers dlOk unquote rest).2 = e :: pre ++ [y]
          rw [htried]
          rfl
        · intro x hx
          rcases List.mem_cons.mp hx with rfl | hx'
          · simpa using hd
          · exact hpre x hx'

set_option maxRecDepth 100000 in
/-- C9 counterexample: with a 1000-name preferred list whose last entry
is "z", the entry at index 999 collides with the absent-name default
sort key 999, so the server "z" — although named in the preferred list —
is NOT moved ahead of the unnamed server "a": the candidate order keeps
"a" first, contradicting the claimed "servers named in P first". -/
theorem C9_counterexample :
    candidate_order [("a", some "ua"), ("z", some "uz")] (some c9bigP) none =
      [("a", "ua"), ("z", "uz")] ∧
    "z" ∈ c9bigP ∧ "a" ∉ c9bigP :=
  ⟨by decide, by decide, by decide⟩

/-- C9 (amended, for preferred lists of at most 999 names): the
candidate order is a permutation of the valid servers with the skip
list removed; it is sorted by the preference key and stable (the
subsequence at each key value keeps discovery order, so preferred
servers come first in preference-list order and the remainder keeps
discovery order); skipped names never appear; names in the preferred
list get keys at most 998 and absent names exactly 999; and the
download loop tries the candidates in exactly this order, stopping at
the first success or failing after exhausting all of them. -/
theorem C9_preference_order (servers : List (String × Option String))
    (P : List String) (skip : Option (List String)) (hP : P.length ≤ 999) :
    (∀ v, (candidate_order servers (some P) skip).filter
        (fun e => pref_key P e.1 == v) =
      (apply_skip skip (valid_urls servers)).filter
        (fun e => pref_key P e.1 == v)) ∧
    (candidate_order servers (some P) skip).Pairwise
      (fun a b => pref_key P a.1 ≤ pref_key P b.1) ∧
    (candidate_order servers (some P) skip).Perm
      (apply_skip skip (valid_urls servers)) ∧
    (∀ S, skip = some S → S.isEmpty = false →
      ∀ e ∈ candidate_order servers (some P) skip,
        ((S.map pyLower).contains (pyLower e.1)) = false) ∧
    (∀ n, (pyLower n ∈ P.map pyLower → pref_key P n ≤ 998) ∧
      (pyLower n ∉ P.map pyLower → pref_key P n = 999)) ∧
    (∀ (dlOk : String → Bool) (unquote : String → String),
      ((download_episode dlOk unquote servers (some P) skip).1 = false →
        (download_episode dlOk unquote servers (some P) skip).2 =
          candidate_order servers (some P) skip ∧
        ∀ e ∈ candidate_order servers (some P) skip,
          dlOk (unwrap_video_url unquote e.2) = false) ∧
      ((download_episode dlOk unquote servers (some P) skip).1 = true →
        ∃ pre e post,
          candidate_order servers (some P) skip = pre ++ e :: post ∧
          (download_episode dlOk unquote servers (some P) skip).2 =
            pre ++ [e] ∧
          (∀ x ∈ pre, dlOk (unwrap_video_url unquote x.2) = false) ∧
          dlOk (unwrap_video_url unquote e.2) = true)) ∧
    candidate_order c9servers (some ["goodstream", "uqload"]) (some ["vk"]) =
      [("goodstream", "u4"), ("uqload", "u2"), ("vudeo", "u1")] := by
  have hco : candidate_order servers (some P) skip =
      (if P.isEmpty = true then apply_skip skip (valid_urls servers)
       else pySortByKey (fun e => pref_key P e.1)
         (apply_skip skip (valid_urls servers))) := rfl
  refine ⟨?_, ?_, ?_, ?_, ?_, ?_, by decide⟩
  · intro v
    rw [hco]
    by_cases hPe : P.isEmpty = true
    · rw [if_pos hPe]
    · rw [if_neg hPe]
      exact pySortByKey_filter (fun (e : String × String) => pref_key P e.1) _ v
  · rw [hco]
    by_cases hPe : P.isEmpty = true
    · rw [if_pos hPe]
      apply pairwise_of_forall_rel
      intro a b
      have ha : pref_key P a.1 = 999 := by
        apply pref_key_eq_999_of_not_mem
        rw [List.isEmpty_iff.mp hPe]
        simp
      have hb : pref_key P b.1 = 999 := by
        apply pref_key_eq_999_of_not_mem
        rw [List.isEmpty_iff.mp hPe]
        simp
      omega
    · rw [if_neg hPe]
      exact pySortByKey_pairwise (fun (e : String × String) => pref_key P e.1) _
  · rw [hco]
    by_cases hPe : P.isEmpty = true
    · rw [if_pos hPe]
    · rw [if_neg hPe]
      exact pySortByKey_perm (fun (e : String × String) => pref_key P e.1) _
  · intro S hS hne e he
    rw [hco] at he
    have he' : e ∈ apply_skip skip (valid_urls servers) := by
      by_cases hPe : P.isEmpty = true
      · rw [if_pos hPe] at he; exact he
      · rw [if_neg hPe] at he
        exact (pySortByKey_perm (fun (e : String × String) => pref_key P e.1) _).mem_iff.mp he
    rw [hS] at he'
    have hsk : apply_skip (some S) (valid_urls servers) =
        (if S.isEmpty = true then valid_urls servers
         else (valid_urls servers).filter
           (fun e => !((S.map pyLower).contains (pyLower e.1)))) := rfl
    rw [hsk, if_neg (by rw [hne]; exact Bool.false_ne_true)] at he'
    rcases List.mem_filter.mp he' with ⟨_, hkeep⟩
    simpa using hkeep
  · intro n
    exact ⟨pref_key_le_of_mem P n hP, pref_key_eq_999_of_not_mem P n⟩
  · intro dlOk unquote
    exact tryServers_spec dlOk unquote (candidate_order servers (some P) skip)

/-- C9 witness: the preference-key bound applied at a concrete preferred
name. -/
theorem C9_witness : pref_key ["goodstream", "uqload"] "uqload" ≤ 998 :=
  ((C9_preference_order c9servers ["goodstream", "uqload"] (some ["vk"])
      (by decide)).2.2.2.2.1 "uqload").1 (by decide)

/-! ### Server-name key sets -/

theorem get_video_urls_length (ajax : Nat → Nat → Except Unit String)
    (resolver : String → List (String × String)) (ep_id : Nat) :
    (get_video_urls ajax resolver ep_id).1.length = 5 := by
  unfold get_video_urls
  try dsimp only
  cases hl : lastWrapper ((List.range' 1 5).map fun n => decodeSlot (ajax ep_id n)) with
  | none => simp
  | some hw =>
    try dsimp only
    by_cases hall : (((List.range' 1 5).map fun n => decodeSlot (ajax ep_id n)).map
        slotValue).all (fun s => s.isNone) = true
    · rw [if_pos hall]
      rfl
    · rw [if_neg hall]
      simp

/-- C1 counterexample: a standard (non-wrapper) resolution of the
new-site path exposes the single key "direct" — not the 5 standard-name
keys, and not the 5 wrapped-name keys — refuting the claim for
`fetch_new_episode`. -/
theorem C1_counterexample :
    (fetch_new_episode emptyResolver
        (some ⟨"https://cdn.example.com/v.mp4", 2, 3⟩) "show" 77).map
      (fun r => (r.servers.map Prod.fst, r.is_hyperwatching)) =
      some (["direct"], false) ∧
    (["direct"] : List String) ≠ SERVER_NAMES_STANDARD ∧
    (["direct"] : List String) ≠ SERVER_NAMES_HYPERWATCHING :=
  ⟨by decide, by decide, by decide⟩

/-- C1 (amended): in the legacy-catalog resolution (`fetch_episode`),
the server-name keys are exactly the five wrapped names when the
wrapper-flag is set and exactly the five standard names otherwise —
drawn from exactly one fixed set, never mixed. -/
theorem C1_fixed_server_name_sets (ajax : Nat → Nat → Except Unit String)
    (resolver : String → List (String × String)) (ep_id : Nat)
    (slug : String) :
    (fetch_episode ajax resolver ep_id slug).servers.map Prod.fst =
      (if (fetch_episode ajax resolver ep_id slug).is_hyperwatching
       then SERVER_NAMES_HYPERWATCHING else SERVER_NAMES_STANDARD) := by
  have hlen := get_video_urls_length ajax resolver ep_id
  unfold fetch_episode
  try dsimp only
  by_cases h : (get_video_urls ajax resolver ep_id).2 = true
  · simp only [h, if_true]
    apply List.map_fst_zip
    rw [hlen]
    decide
  · simp only [Bool.not_eq_true] at h
    simp only [h, Bool.false_eq_true, if_false]
    apply List.map_fst_zip
    rw [hlen]
    decide

end Scrapers
